import Mathlib

/-!
# Middleware chains (`package chains`)

A shallow embedding of `chains.go` and of the handlers of `chains_test.go`.

* The three values threaded through every call (`context.Context`,
  `http.ResponseWriter`, `*http.Request`) are references; what is done with a
  writer is recorded in the trace of the world.
* A Go `error` is `Option Err`; `none` is `nil`.
* A handler body is user code.  It is embedded as a tree of the actions a
  body can take: return, call `cx.Next` on the cursor it was given, write to
  a writer, note something in its own state, append to a builder or replace
  the renderer of a builder.  After a call of `Next` the body continues as a
  function of the error that call returned.
  A body uses its cursor through `Next` only, reads nothing of the world, and
  does not panic.
* `*HandlerChain` is an address in the heap of the world; the slice
  `elements` is a list (value semantics of `append`).  Every address holds a
  builder; `brk` is the next address `Chain` hands out.
* An error renderer acts on the writer it is given only.
* The trace is ghost state: `ChainCtx.Next` notes each `HandleRequest` it
  dispatches and `ServeHTTP` notes each call of the error renderer.
-/

namespace Chains

/-! ## Data model -/

/-- Go `context.Context`: a value handed on unchanged by the package. -/
abbrev Context := Nat

/-- Go `http.ResponseWriter`: a reference to a response sink. -/
abbrev ResponseWriter := Nat

/-- Go `*http.Request`; `ctx` is what `request.Context()` returns. -/
structure Request where
  id : Nat
  ctx : Context
  deriving DecidableEq, Repr

/-- Method `Context` of `*http.Request`. -/
def Request.Context (r : Request) : Context := r.ctx

/-- A non-nil Go error value. -/
abbrev Err := String

/-- Go `error`: `none` is `nil`. -/
abbrev error := Option Err

/-- Go `http.StatusInternalServerError`, a constant of the standard package
`net/http`: status code 500. -/
def StatusInternalServerError : Nat := 500

/-- The calls a piece of code can make on a `http.ResponseWriter`. -/
inductive WriterOp where
  | WriteHeader (statusCode : Nat)
  | Write (data : String)
  deriving DecidableEq, Repr

/-- Go `type RenderErrorFunc func(http.ResponseWriter, error)`: the calls it
makes on the writer it is given, as a function of the error; `name` tells
two function values apart. -/
structure RenderErrorFunc where
  name : Nat
  body : error → List WriterOp

mutual
/-- The body of a handler: the actions it takes, in order. -/
inductive Prog where
  /-- Statement `return e`. -/
  | ret (e : error)
  /-- Statement `err := cx.Next(ctx, w, r)` on the cursor the handler was given. -/
  | next (ctx : Context) (w : ResponseWriter) (r : Request) (k : error → Prog)
  /-- A write to the handler's own state, such as `c.called = true`. -/
  | mark (tag : Nat) (k : Prog)
  /-- A call on a response writer. -/
  | writer (w : ResponseWriter) (op : WriterOp) (k : Prog)
  /-- Statement `chain.Chain(h)` on the builder at address `chain`. -/
  | chainAppend (chain : Nat) (h : Handler) (k : Prog)
  /-- Statement `chain.Err(f)` on the builder at address `chain`. -/
  | chainErr (chain : Nat) (f : RenderErrorFunc) (k : Prog)
/-- Go `type Handler interface`: the values that implement `HandleRequest`. -/
inductive Handler where
  /-- A user type with a `HandleRequest` method; `name` is its identity. -/
  | obj (name : Nat) (body : Context → ResponseWriter → Request → Prog)
  /-- Go `handlerFunc{f: f}`. -/
  | handlerFunc (f : Context → ResponseWriter → Request → Prog)
  /-- A `*HandlerChain` used as a handler. -/
  | chain (p : Nat)
end

/-- Go `type HandlerFunc func(context.Context, http.ResponseWriter, *http.Request, ChainCtx) error`. -/
abbrev HandlerFunc := Context → ResponseWriter → Request → Prog

/-- Go `type ChainCtx []Handler`. -/
abbrev ChainCtx := List Handler

/-- Go `type HandlerChain struct`. -/
structure HandlerChain where
  renderErrorFunc : RenderErrorFunc
  elements : List Handler

/-- What the trace records. -/
inductive Event where
  /-- `Next` dispatched `h.HandleRequest(ctx, w, r, cx)`. -/
  | call (h : Handler) (ctx : Context) (w : ResponseWriter) (r : Request) (cx : ChainCtx)
  /-- A handler wrote to its own state. -/
  | mark (tag : Nat)
  /-- A call on the response writer `w`. -/
  | writer (w : ResponseWriter) (op : WriterOp)
  /-- `ServeHTTP` called the error renderer `f(w, err)`. -/
  | render (f : RenderErrorFunc) (w : ResponseWriter) (err : error)

/-- The state of the program: the trace so far, the next free address and
the builders by address. -/
structure World where
  trace : List Event
  brk : Nat
  heap : Nat → HandlerChain

/-- Append an event to the trace. -/
def World.record (s : World) (e : Event) : World :=
  { s with trace := s.trace ++ [e] }

/-- Overwrite the builder at address `p`. -/
def World.store (s : World) (p : Nat) (c : HandlerChain) : World :=
  { s with heap := Function.update s.heap p c }

/-! ## The package -/

/-- Go `func BasicErrorHandler(writer http.ResponseWriter, err error)`. -/
def BasicErrorHandler : RenderErrorFunc :=
  { name := 0, body := fun _ => [WriterOp.WriteHeader StatusInternalServerError] }

/-- Go `func MakeHandler(f HandlerFunc) Handler`. -/
def MakeHandler (f : HandlerFunc) : Handler := Handler.handlerFunc f

/-- Go `func (chain *HandlerChain) Chain(h Handler) *HandlerChain`. -/
def HandlerChain.Chain (chain : Nat) (h : Handler) (s : World) : Nat × World :=
  (chain, s.store chain { s.heap chain with elements := (s.heap chain).elements ++ [h] })

/-- Go `func (chain *HandlerChain) Err(f RenderErrorFunc) *HandlerChain`. -/
def HandlerChain.Err (chain : Nat) (f : RenderErrorFunc) (s : World) : Nat × World :=
  (chain, s.store chain { s.heap chain with renderErrorFunc := f })

/-- Go `func (chain *HandlerChain) ChainFunc(f HandlerFunc) *HandlerChain`. -/
def HandlerChain.ChainFunc (chain : Nat) (f : HandlerFunc) (s : World) : Nat × World :=
  HandlerChain.Chain chain (MakeHandler f) s

/-- Go `func Chain(h Handler) *HandlerChain`: a new builder is allocated. -/
def Chain (h : Handler) (s : World) : Nat × World :=
  let chain := s.brk
  let s1 : World :=
    { s with brk := s.brk + 1,
             heap := Function.update s.heap chain
               { renderErrorFunc := BasicErrorHandler, elements := [] } }
  HandlerChain.Chain chain h s1

/-- Go `func ChainFunc(f HandlerFunc) *HandlerChain`. -/
def ChainFunc (f : HandlerFunc) (s : World) : Nat × World :=
  Chain (MakeHandler f) s

/-- Run the body of a handler; `cxNext` is the method `Next` of the cursor the
handler was given. -/
def Prog.exec (cxNext : Context → ResponseWriter → Request → World → error × World) :
    Prog → World → error × World
  | .ret e, s => (e, s)
  | .next ctx w r k, s => (k (cxNext ctx w r s).1).exec cxNext (cxNext ctx w r s).2
  | .mark tag k, s => k.exec cxNext (s.record (Event.mark tag))
  | .writer w op k, s => k.exec cxNext (s.record (Event.writer w op))
  | .chainAppend chain h k, s => k.exec cxNext (HandlerChain.Chain chain h s).2
  | .chainErr chain f k, s => k.exec cxNext (HandlerChain.Err chain f s).2

/-- The body of method `HandleRequest` of each kind of handler.
* user type: its own body;
* `handlerFunc`: `return h.f(ctx, writer, request, cx)`, the body of `f` on the same cursor;
* `*HandlerChain`: `return cx.Next(ctx, writer, request)`. -/
def Handler.code : Handler → Context → ResponseWriter → Request → Prog
  | .obj _ body => body
  | .handlerFunc f => f
  | .chain _ => fun ctx writer request => Prog.next ctx writer request Prog.ret

/-- A call of `h.HandleRequest(ctx, w, r, cx)`, the cursor `cx` being given by
its method `Next`. -/
def Handler.invoke (cxNext : Context → ResponseWriter → Request → World → error × World)
    (h : Handler) (ctx : Context) (w : ResponseWriter) (r : Request) (s : World) :
    error × World :=
  (h.code ctx w r).exec cxNext s

/-- Go `func (c ChainCtx) Next(ctx, w, r) error`. -/
def ChainCtx.Next : ChainCtx → Context → ResponseWriter → Request → World → error × World
  | [], _, _, _, s => (none, s)
  | h :: c, ctx, w, r, s =>
      h.invoke (ChainCtx.Next c) ctx w r (s.record (Event.call h ctx w r c))

/-- Method `HandleRequest` of the interface `Handler`, called with the cursor `cx`. -/
def Handler.HandleRequest (h : Handler) (ctx : Context) (w : ResponseWriter) (r : Request)
    (cx : ChainCtx) (s : World) : error × World :=
  h.invoke (ChainCtx.Next cx) ctx w r s

/-- Go `func (chain *HandlerChain) HandleRequest(ctx, writer, request, cx) error`. -/
def HandlerChain.HandleRequest (_chain : Nat) (ctx : Context) (writer : ResponseWriter)
    (request : Request) (cx : ChainCtx) (s : World) : error × World :=
  ChainCtx.Next cx ctx writer request s

/-- A call `f(writer, err)` of an error renderer. -/
def RenderErrorFunc.call (f : RenderErrorFunc) (writer : ResponseWriter) (err : error)
    (s : World) : World :=
  (f.body err).foldl (fun t op => t.record (Event.writer writer op))
    (s.record (Event.render f writer err))

/-- Go `func (chain *HandlerChain) ServeHTTP(writer, request)`. -/
def HandlerChain.ServeHTTP (chain : Nat) (writer : ResponseWriter) (request : Request)
    (s : World) : World :=
  let out := HandlerChain.HandleRequest chain request.Context writer request
    (s.heap chain).elements s
  match out.1 with
  | some e => ((out.2.heap chain).renderErrorFunc).call writer (some e) out.2
  | none => out.2

/-! ## The handlers of `chains_test.go` -/

/-- Test type `chainh1`: `c.called = true; return cx.Next(ctx, wr, rq)`.
The address of the value is `name`. -/
def chainh1 (name : Nat) : Handler :=
  Handler.obj name (fun ctx wr rq => Prog.mark name (Prog.next ctx wr rq Prog.ret))

/-- Test type `chainerr`: `return errors.New("err")`. -/
def chainerr (name : Nat) : Handler :=
  Handler.obj name (fun _ _ _ => Prog.ret (some "err"))

/-! ## Observations on the trace -/

/-- The handler and cursor of a dispatch event. -/
def Event.invocation : Event → Option (Handler × ChainCtx)
  | .call h _ _ _ cx => some (h, cx)
  | _ => none

/-- The renderer, writer and error of a render event. -/
def Event.rendering : Event → Option (RenderErrorFunc × ResponseWriter × error)
  | .render f w err => some (f, w, err)
  | _ => none

/-- Every `HandleRequest` dispatched so far, with the cursor it was given, oldest first. -/
def World.invocations (s : World) : List (Handler × ChainCtx) :=
  s.trace.filterMap Event.invocation

/-- The handlers invoked so far, oldest first. -/
def World.invoked (s : World) : List Handler :=
  s.invocations.map Prod.fst

/-- Every call of an error renderer so far, oldest first. -/
def World.rendered (s : World) : List (RenderErrorFunc × ResponseWriter × error) :=
  s.trace.filterMap Event.rendering

/-- The tags written by handlers so far (`called` flags of the test handlers). -/
def World.marks (s : World) : List Nat :=
  s.trace.filterMap (fun e => match e with | .mark t => some t | _ => none)

/-- A world with an empty trace and no builder allocated. -/
def World.init : World :=
  { trace := [], brk := 0,
    heap := fun _ => { renderErrorFunc := BasicErrorHandler, elements := [] } }

/-! ## Classes of handler bodies -/

/-- The body returns `e` and never calls `Next`. -/
inductive Prog.Stops (e : error) : Prog → Prop
  | ret : Prog.Stops e (Prog.ret e)
  | mark {tag : Nat} {k : Prog} : Prog.Stops e k → Prog.Stops e (Prog.mark tag k)
  | writer {w : ResponseWriter} {op : WriterOp} {k : Prog} :
      Prog.Stops e k → Prog.Stops e (Prog.writer w op k)
  | chainAppend {chain : Nat} {h : Handler} {k : Prog} :
      Prog.Stops e k → Prog.Stops e (Prog.chainAppend chain h k)
  | chainErr {chain : Nat} {f : RenderErrorFunc} {k : Prog} :
      Prog.Stops e k → Prog.Stops e (Prog.chainErr chain f k)

/-- The body calls `Next` exactly once and returns `post err`, where `err` is
what that call returned. -/
inductive Prog.Once (post : error → error) : Prog → Prop
  | next {ctx : Context} {w : ResponseWriter} {r : Request} {k : error → Prog} :
      (∀ e, (k e).Stops (post e)) → Prog.Once post (Prog.next ctx w r k)
  | mark {tag : Nat} {k : Prog} : Prog.Once post k → Prog.Once post (Prog.mark tag k)
  | writer {w : ResponseWriter} {op : WriterOp} {k : Prog} :
      Prog.Once post k → Prog.Once post (Prog.writer w op k)
  | chainAppend {chain : Nat} {h : Handler} {k : Prog} :
      Prog.Once post k → Prog.Once post (Prog.chainAppend chain h k)
  | chainErr {chain : Nat} {f : RenderErrorFunc} {k : Prog} :
      Prog.Once post k → Prog.Once post (Prog.chainErr chain f k)

/-- The body calls `Next`: it reaches a call of `Next`, whatever it does afterwards. -/
inductive Prog.CallsNext : Prog → Prop
  | next {ctx : Context} {w : ResponseWriter} {r : Request} {k : error → Prog} :
      Prog.CallsNext (Prog.next ctx w r k)
  | mark {tag : Nat} {k : Prog} : Prog.CallsNext k → Prog.CallsNext (Prog.mark tag k)
  | writer {w : ResponseWriter} {op : WriterOp} {k : Prog} :
      Prog.CallsNext k → Prog.CallsNext (Prog.writer w op k)
  | chainAppend {chain : Nat} {h : Handler} {k : Prog} :
      Prog.CallsNext k → Prog.CallsNext (Prog.chainAppend chain h k)
  | chainErr {chain : Nat} {f : RenderErrorFunc} {k : Prog} :
      Prog.CallsNext k → Prog.CallsNext (Prog.chainErr chain f k)

/-- The body returns no error when every call of `Next` it made returned none. -/
inductive Prog.NilIfNil : Prog → Prop
  | ret : Prog.NilIfNil (Prog.ret none)
  | next {ctx : Context} {w : ResponseWriter} {r : Request} {k : error → Prog} :
      Prog.NilIfNil (k none) → Prog.NilIfNil (Prog.next ctx w r k)
  | mark {tag : Nat} {k : Prog} : Prog.NilIfNil k → Prog.NilIfNil (Prog.mark tag k)
  | writer {w : ResponseWriter} {op : WriterOp} {k : Prog} :
      Prog.NilIfNil k → Prog.NilIfNil (Prog.writer w op k)
  | chainAppend {chain : Nat} {h : Handler} {k : Prog} :
      Prog.NilIfNil k → Prog.NilIfNil (Prog.chainAppend chain h k)
  | chainErr {chain : Nat} {f : RenderErrorFunc} {k : Prog} :
      Prog.NilIfNil k → Prog.NilIfNil (Prog.chainErr chain f k)

/-- The body returns no error when every call of `Next` it made returned an error. -/
inductive Prog.NilOnError : Prog → Prop
  | ret : Prog.NilOnError (Prog.ret none)
  | next {ctx : Context} {w : ResponseWriter} {r : Request} {k : error → Prog} :
      (∀ e : Err, Prog.NilOnError (k (some e))) → Prog.NilOnError (Prog.next ctx w r k)
  | mark {tag : Nat} {k : Prog} : Prog.NilOnError k → Prog.NilOnError (Prog.mark tag k)
  | writer {w : ResponseWriter} {op : WriterOp} {k : Prog} :
      Prog.NilOnError k → Prog.NilOnError (Prog.writer w op k)
  | chainAppend {chain : Nat} {h : Handler} {k : Prog} :
      Prog.NilOnError k → Prog.NilOnError (Prog.chainAppend chain h k)
  | chainErr {chain : Nat} {f : RenderErrorFunc} {k : Prog} :
      Prog.NilOnError k → Prog.NilOnError (Prog.chainErr chain f k)

/-- Every return statement of the body returns what one of the calls of `Next`
made before it returned; `seen` holds the results of the calls made so far. -/
inductive Prog.ReturnsOneOf : List error → Prog → Prop
  | ret {seen : List error} {e : error} : e ∈ seen → Prog.ReturnsOneOf seen (Prog.ret e)
  | next {seen : List error} {ctx : Context} {w : ResponseWriter} {r : Request}
      {k : error → Prog} :
      (∀ e, Prog.ReturnsOneOf (e :: seen) (k e)) → Prog.ReturnsOneOf seen (Prog.next ctx w r k)
  | mark {seen : List error} {tag : Nat} {k : Prog} :
      Prog.ReturnsOneOf seen k → Prog.ReturnsOneOf seen (Prog.mark tag k)
  | writer {seen : List error} {w : ResponseWriter} {op : WriterOp} {k : Prog} :
      Prog.ReturnsOneOf seen k → Prog.ReturnsOneOf seen (Prog.writer w op k)
  | chainAppend {seen : List error} {chain : Nat} {h : Handler} {k : Prog} :
      Prog.ReturnsOneOf seen k → Prog.ReturnsOneOf seen (Prog.chainAppend chain h k)
  | chainErr {seen : List error} {chain : Nat} {f : RenderErrorFunc} {k : Prog} :
      Prog.ReturnsOneOf seen k → Prog.ReturnsOneOf seen (Prog.chainErr chain f k)

/-- The handler returns `e` without calling `Next`, whatever the request. -/
def Handler.Stops (h : Handler) (e : error) : Prop :=
  ∀ ctx w r, (h.code ctx w r).Stops e

/-- The handler returns a failure without calling `Next`. -/
def Handler.Fails (h : Handler) : Prop :=
  ∀ ctx w r, ∃ e : Err, (h.code ctx w r).Stops (some e)

/-- The handler calls `Next` on the cursor it received (at least once). -/
def Handler.CallsNext (h : Handler) : Prop :=
  ∀ ctx w r, (h.code ctx w r).CallsNext

/-- The handler calls `Next` on the cursor it received exactly once. -/
def Handler.CallsNextOnce (h : Handler) : Prop :=
  ∀ ctx w r, ∃ post, (h.code ctx w r).Once post

/-- The handler returns no error when its calls of `Next` returned none. -/
def Handler.NilIfNil (h : Handler) : Prop :=
  ∀ ctx w r, (h.code ctx w r).NilIfNil

/-- The handler calls `Next` and returns nil after that call returned an error. -/
def Handler.Catches (h : Handler) : Prop :=
  ∀ ctx w r, (h.code ctx w r).CallsNext ∧ (h.code ctx w r).NilOnError

/-- The handler calls `Next` and returns the result of a call of `Next` it made. -/
def Handler.Forwards (h : Handler) : Prop :=
  ∀ ctx w r, (h.code ctx w r).ReturnsOneOf []

/-- The first `n` dispatches of a run in which every handler continues: the
handler at position `i` with the cursor that follows it. -/
def ChainCtx.schedule : ChainCtx → Nat → List (Handler × ChainCtx)
  | [], _ => []
  | _ :: _, 0 => []
  | h :: c, n + 1 => (h, c) :: ChainCtx.schedule c n

/-- The expression `Chain(h0).Chain(h1)...Chain(hN-1)`. -/
def buildChain (h0 : Handler) (hs : List Handler) (s : World) : Nat × World :=
  hs.foldl (fun acc h => HandlerChain.Chain acc.1 h acc.2) (Chain h0 s)

/-- A handler that calls `Next` twice on the cursor it received and returns
what the second call returned. -/
def callsNextTwice (name : Nat) : Handler :=
  Handler.obj name (fun ctx w r => Prog.next ctx w r (fun _ => Prog.next ctx w r Prog.ret))

/-- The call `chain.HandleRequest(ctx, w, r, chain.elements)`: the chain run
over its own element list. -/
def runOwnElements (chain : Nat) (ctx : Context) (w : ResponseWriter) (r : Request)
    (s : World) : error × World :=
  HandlerChain.HandleRequest chain ctx w r (s.heap chain).elements s

/-- A handler that returns nil without calling `Next`. -/
def stopsNil (name : Nat) : Handler :=
  Handler.obj name (fun _ _ _ => Prog.ret none)

/-- A handler that calls `Next` once and returns nil whatever that call returned. -/
def swallows (name : Nat) : Handler :=
  Handler.obj name (fun ctx w r => Prog.next ctx w r (fun _ => Prog.ret none))

/-- The chain of `TestChainErr`: `Chain(&a).Chain(&b).Chain(&e).Chain(&c)`. -/
def testChainErr : Nat × World :=
  buildChain (chainh1 1) [chainh1 2, chainerr 5, chainh1 3] World.init

/-- A chain whose first handler calls `Next` twice and whose second handler fails. -/
def twiceThenErr : Nat × World :=
  buildChain (callsNextTwice 0) [chainerr 1, chainh1 2] World.init

/-- A chain whose second handler returns nil without calling `Next`. -/
def stopInTheMiddle : Nat × World :=
  buildChain (chainh1 1) [stopsNil 2, chainh1 3] World.init

/-- A chain whose first handler calls `Next` twice and whose second handler
returns nil without calling `Next`. -/
def twiceThenStop : Nat × World :=
  buildChain (callsNextTwice 0) [stopsNil 1, chainh1 2] World.init

/-- A chain with the single handler `chainh1 1`. -/
def oneHandler : Nat × World := Chain (chainh1 1) World.init

/-- The chain `Chain(inner)` whose only element is the chain `oneHandler`. -/
def nestedChain : Nat × World := Chain (Handler.chain oneHandler.1) oneHandler.2

/-- A chain whose second handler catches the failure of the third. -/
def caughtFailure : Nat × World :=
  buildChain (chainh1 1) [swallows 2, chainerr 3] World.init

/-- The method `chain.Chain(h)` called `m` times in a row. -/
def appendTimes (chain : Nat) (h : Handler) : Nat → World → World
  | 0, s => s
  | m + 1, s => appendTimes chain h m (HandlerChain.Chain chain h s).2

/-- The reference definition of `Next`, after the specification: if the cursor
is empty, succeed immediately; otherwise invoke the first handler of the
cursor, passing it the cursor of all but the first element, and return
whatever that invocation returns. -/
def ChainCtx.NextSpec (c : ChainCtx) (ctx : Context) (w : ResponseWriter) (r : Request)
    (s : World) : error × World :=
  if c.isEmpty then (none, s)
  else
    match c.head? with
    | some h => h.HandleRequest ctx w r c.tail (s.record (Event.call h ctx w r c.tail))
    | none => (none, s)

/-- The result of a cursor's `Next` is `e` on every call. -/
def Returns (f : Context → ResponseWriter → Request → World → error × World) (e : error) :
    Prop :=
  ∀ ctx w r s, (f ctx w r s).1 = e

/-- Every call of a cursor's `Next` dispatches exactly `X`, in this order. -/
def Invokes (f : Context → ResponseWriter → Request → World → error × World)
    (X : List (Handler × ChainCtx)) : Prop :=
  ∀ ctx w r s, (f ctx w r s).2.invocations = s.invocations ++ X

/-- A write on the response writer `w`, if the event is one. -/
def Event.written (w : ResponseWriter) : Event → Option WriterOp
  | .writer w1 op => if w1 = w then some op else none
  | _ => none

/-- The calls made so far on the response writer `w`, oldest first. -/
def World.written (s : World) (w : ResponseWriter) : List WriterOp :=
  s.trace.filterMap (Event.written w)

/-- The body never replaces the renderer of the builder at `chain`: no `chain.Err(f)`. -/
inductive Prog.NoErrOn (chain : Nat) : Prog → Prop
  | ret {e : error} : Prog.NoErrOn chain (Prog.ret e)
  | next {ctx : Context} {w : ResponseWriter} {r : Request} {k : error → Prog} :
      (∀ e, Prog.NoErrOn chain (k e)) → Prog.NoErrOn chain (Prog.next ctx w r k)
  | mark {tag : Nat} {k : Prog} : Prog.NoErrOn chain k → Prog.NoErrOn chain (Prog.mark tag k)
  | writer {w : ResponseWriter} {op : WriterOp} {k : Prog} :
      Prog.NoErrOn chain k → Prog.NoErrOn chain (Prog.writer w op k)
  | chainAppend {p : Nat} {h : Handler} {k : Prog} :
      Prog.NoErrOn chain k → Prog.NoErrOn chain (Prog.chainAppend p h k)
  | chainErr {p : Nat} {f : RenderErrorFunc} {k : Prog} :
      p ≠ chain → Prog.NoErrOn chain k → Prog.NoErrOn chain (Prog.chainErr p f k)

/-- The body does not modify the builder at `chain`: no `chain.Chain(h)` and
no `chain.Err(f)`. -/
inductive Prog.Keeps (chain : Nat) : Prog → Prop
  | ret {e : error} : Prog.Keeps chain (Prog.ret e)
  | next {ctx : Context} {w : ResponseWriter} {r : Request} {k : error → Prog} :
      (∀ e, Prog.Keeps chain (k e)) → Prog.Keeps chain (Prog.next ctx w r k)
  | mark {tag : Nat} {k : Prog} : Prog.Keeps chain k → Prog.Keeps chain (Prog.mark tag k)
  | writer {w : ResponseWriter} {op : WriterOp} {k : Prog} :
      Prog.Keeps chain k → Prog.Keeps chain (Prog.writer w op k)
  | chainAppend {p : Nat} {h : Handler} {k : Prog} :
      p ≠ chain → Prog.Keeps chain k → Prog.Keeps chain (Prog.chainAppend p h k)
  | chainErr {p : Nat} {f : RenderErrorFunc} {k : Prog} :
      p ≠ chain → Prog.Keeps chain k → Prog.Keeps chain (Prog.chainErr p f k)

/-- The handler never calls `Err` on the builder at `chain`. -/
def Handler.NoErrOn (h : Handler) (chain : Nat) : Prop :=
  ∀ ctx w r, (h.code ctx w r).NoErrOn chain

/-- The handler does not modify the builder at `chain`. -/
def Handler.Keeps (h : Handler) (chain : Nat) : Prop :=
  ∀ ctx w r, (h.code ctx w r).Keeps chain

/-- An error renderer that writes status 400 and the body `f`. -/
def renderF : RenderErrorFunc :=
  { name := 1, body := fun _ => [WriterOp.WriteHeader 400, WriterOp.Write "f"] }

/-- An error renderer that writes status 502 and the body `g`. -/
def renderG : RenderErrorFunc :=
  { name := 2, body := fun _ => [WriterOp.WriteHeader 502, WriterOp.Write "g"] }

/-- A handler that calls `chain.Err(f)` on the builder at `chain` and then fails. -/
def setsRendererThenFails (name chain : Nat) (f : RenderErrorFunc) : Handler :=
  Handler.obj name (fun _ _ _ => Prog.chainErr chain f (Prog.ret (some "err")))

/-- The chain `c := Chain(&a).Chain(&e)` of a pass-through and a failing
handler, followed by `c.Err(renderF).Err(renderG)`. -/
def failingWithG : Nat × World :=
  HandlerChain.Err (buildChain (chainh1 1) [chainerr 2] World.init).1 renderG
    (HandlerChain.Err (buildChain (chainh1 1) [chainerr 2] World.init).1 renderF
      (buildChain (chainh1 1) [chainerr 2] World.init).2).2

/-- The chain `c := Chain(h)`, where `h` calls `c.Err(renderF)` and fails,
followed by `c.Err(renderF).Err(renderG)`. -/
def handlerResetsRenderer : Nat × World :=
  HandlerChain.Err (Chain (setsRendererThenFails 7 0 renderF) World.init).1 renderG
    (HandlerChain.Err (Chain (setsRendererThenFails 7 0 renderF) World.init).1 renderF
      (Chain (setsRendererThenFails 7 0 renderF) World.init).2).2

/-- The event is a dispatch noted by `Next`. -/
def Event.isCall : Event → Bool
  | .call _ _ _ _ _ => true
  | _ => false

/-- What the code did so far, the dispatch notes left out: the writes of the
handlers to their state and to the writers, and the calls of the renderers. -/
def World.effects (s : World) : List Event :=
  s.trace.filter (fun e => !e.isCall)

/-- Two worlds that differ at most in which handler values were dispatched:
same builders, same effects, same number of dispatches. -/
def SameEffects (s t : World) : Prop :=
  s.heap = t.heap ∧ s.brk = t.brk ∧ s.effects = t.effects ∧
    s.invocations.length = t.invocations.length

/-- A function `f` as an object-style handler named `name`. -/
def objectStyle (p : Nat × HandlerFunc) : Handler := Handler.obj p.1 p.2

/-- A function `f` as a function-style handler, `MakeHandler(f)`. -/
def functionStyle (p : Nat × HandlerFunc) : Handler := MakeHandler p.2

/-- A handler that appends `h1` to the builder at `chain` and then continues. -/
def appendsThenContinues (name chain : Nat) (h1 : Handler) : Handler :=
  Handler.obj name (fun ctx w r => Prog.chainAppend chain h1 (Prog.next ctx w r Prog.ret))

/-- The chain `c := Chain(h)`, where `h` appends `chainh1 9` to `c` whenever it runs. -/
def appendingChain : Nat × World :=
  Chain (appendsThenContinues 4 0 (chainh1 9)) World.init

/-- The body calls `Next` exactly `m` times, whatever the calls return. -/
inductive Prog.Times : Nat → Prog → Prop
  | ret {e : error} : Prog.Times 0 (Prog.ret e)
  | next {m : Nat} {ctx : Context} {w : ResponseWriter} {r : Request} {k : error → Prog} :
      (∀ e, Prog.Times m (k e)) → Prog.Times (m + 1) (Prog.next ctx w r k)
  | mark {m : Nat} {tag : Nat} {k : Prog} : Prog.Times m k → Prog.Times m (Prog.mark tag k)
  | writer {m : Nat} {w : ResponseWriter} {op : WriterOp} {k : Prog} :
      Prog.Times m k → Prog.Times m (Prog.writer w op k)
  | chainAppend {m : Nat} {chain : Nat} {h : Handler} {k : Prog} :
      Prog.Times m k → Prog.Times m (Prog.chainAppend chain h k)
  | chainErr {m : Nat} {chain : Nat} {f : RenderErrorFunc} {k : Prog} :
      Prog.Times m k → Prog.Times m (Prog.chainErr chain f k)

/-- The handler calls `Next` exactly `m` times on the cursor it received. -/
def Handler.CallsNextTimes (h : Handler) (m : Nat) : Prop :=
  ∀ ctx w r, (h.code ctx w r).Times m

/-- The handler calls `Next` at most once on the cursor it received. -/
def Handler.AtMostOnce (h : Handler) : Prop :=
  ∀ ctx w r, (∃ e, (h.code ctx w r).Stops e) ∨ (∃ post, (h.code ctx w r).Once post)

/-- The list `X` repeated `m` times. -/
def timesList {α : Type} : Nat → List α → List α
  | 0, _ => []
  | m + 1, X => X ++ timesList m X

/-- The arguments of the first call of `Next` the body makes, if it makes one. -/
def Prog.nextArgs : Prog → Option (Context × ResponseWriter × Request)
  | .ret _ => none
  | .next ctx w r _ => some (ctx, w, r)
  | .mark _ k => k.nextArgs
  | .writer _ _ k => k.nextArgs
  | .chainAppend _ _ k => k.nextArgs
  | .chainErr _ _ k => k.nextArgs

/-- The number of leading handlers of the cursor that choose to continue in the
run started with `ctx`, `w`, `r`: each one that calls `Next` hands its own
arguments to the handler after it. -/
def ChainCtx.continuing : ChainCtx → Context → ResponseWriter → Request → Nat
  | [], _, _, _ => 0
  | h :: c, ctx, w, r =>
      match (h.code ctx w r).nextArgs with
      | none => 0
      | some a => 1 + ChainCtx.continuing c a.1 a.2.1 a.2.2

/-- The renderers that the body hands to `chain.Err`, for the builder at
`chain`, while it runs, oldest first.  It follows `Prog.exec` step by step:
`cxNext` is the method `Next` of the cursor and `cxErrs` the calls of
`chain.Err` made during one call of that `Next`. -/
def Prog.errsOn (chain : Nat)
    (cxNext : Context → ResponseWriter → Request → World → error × World)
    (cxErrs : Context → ResponseWriter → Request → World → List RenderErrorFunc) :
    Prog → World → List RenderErrorFunc
  | .ret _, _ => []
  | .next ctx w r k, s =>
      cxErrs ctx w r s ++ (k (cxNext ctx w r s).1).errsOn chain cxNext cxErrs (cxNext ctx w r s).2
  | .mark tag k, s => k.errsOn chain cxNext cxErrs (s.record (Event.mark tag))
  | .writer w op k, s => k.errsOn chain cxNext cxErrs (s.record (Event.writer w op))
  | .chainAppend p h k, s => k.errsOn chain cxNext cxErrs (HandlerChain.Chain p h s).2
  | .chainErr p f k, s =>
      (if p = chain then [f] else []) ++ k.errsOn chain cxNext cxErrs (HandlerChain.Err p f s).2

/-- The renderers that the handlers hand to `chain.Err`, for the builder at
`chain`, during the call `c.Next(ctx, w, r)` in the world `s`, oldest first:
empty when no handler calls `Err` on that builder during the run. -/
def ChainCtx.errsOn (chain : Nat) :
    ChainCtx → Context → ResponseWriter → Request → World → List RenderErrorFunc
  | [], _, _, _, _ => []
  | h :: c, ctx, w, r, s =>
      (h.code ctx w r).errsOn chain (ChainCtx.Next c) (ChainCtx.errsOn chain c)
        (s.record (Event.call h ctx w r c))

/-- The renderer left by the writes `l`, made in this order on a builder whose
renderer was `d`: the last one written. -/
def lastWrite (d : RenderErrorFunc) (l : List RenderErrorFunc) : RenderErrorFunc :=
  l.foldl (fun _ x => x) d

/-- The chain `c := Chain(&e).Chain(h)`, where `e` fails and `h`, which is
never reached, would call `c.Err(renderF)`. -/
def unreachedErr : Nat × World :=
  buildChain (chainerr 1) [setsRendererThenFails 7 0 renderF] World.init

/-! ## The trace under one step -/

@[simp] theorem invocations_record_call (s : World) (h : Handler) (ctx : Context)
    (w : ResponseWriter) (r : Request) (cx : ChainCtx) :
    (s.record (Event.call h ctx w r cx)).invocations = s.invocations ++ [(h, cx)] := by
  simp [World.record, World.invocations, Event.invocation]

@[simp] theorem invocations_record_mark (s : World) (tag : Nat) :
    (s.record (Event.mark tag)).invocations = s.invocations := by
  simp [World.record, World.invocations, Event.invocation]

@[simp] theorem invocations_record_writer (s : World) (w : ResponseWriter) (op : WriterOp) :
    (s.record (Event.writer w op)).invocations = s.invocations := by
  simp [World.record, World.invocations, Event.invocation]

@[simp] theorem invocations_record_render (s : World) (f : RenderErrorFunc)
    (w : ResponseWriter) (err : error) :
    (s.record (Event.render f w err)).invocations = s.invocations := by
  simp [World.record, World.invocations, Event.invocation]

@[simp] theorem invocations_store (s : World) (p : Nat) (c : HandlerChain) :
    (s.store p c).invocations = s.invocations := rfl

@[simp] theorem rendered_record_call (s : World) (h : Handler) (ctx : Context)
    (w : ResponseWriter) (r : Request) (cx : ChainCtx) :
    (s.record (Event.call h ctx w r cx)).rendered = s.rendered := by
  simp [World.record, World.rendered, Event.rendering]

@[simp] theorem rendered_record_mark (s : World) (tag : Nat) :
    (s.record (Event.mark tag)).rendered = s.rendered := by
  simp [World.record, World.rendered, Event.rendering]

@[simp] theorem rendered_record_writer (s : World) (w : ResponseWriter) (op : WriterOp) :
    (s.record (Event.writer w op)).rendered = s.rendered := by
  simp [World.record, World.rendered, Event.rendering]

@[simp] theorem rendered_record_render (s : World) (f : RenderErrorFunc)
    (w : ResponseWriter) (err : error) :
    (s.record (Event.render f w err)).rendered = s.rendered ++ [(f, w, err)] := by
  simp [World.record, World.rendered, Event.rendering]

@[simp] theorem rendered_store (s : World) (p : Nat) (c : HandlerChain) :
    (s.store p c).rendered = s.rendered := rfl

@[simp] theorem Chain_method_invocations (chain : Nat) (h : Handler) (s : World) :
    (HandlerChain.Chain chain h s).2.invocations = s.invocations := rfl

@[simp] theorem Err_method_invocations (chain : Nat) (f : RenderErrorFunc) (s : World) :
    (HandlerChain.Err chain f s).2.invocations = s.invocations := rfl

@[simp] theorem Chain_method_rendered (chain : Nat) (h : Handler) (s : World) :
    (HandlerChain.Chain chain h s).2.rendered = s.rendered := rfl

@[simp] theorem Err_method_rendered (chain : Nat) (f : RenderErrorFunc) (s : World) :
    (HandlerChain.Err chain f s).2.rendered = s.rendered := rfl

/-! ## Running a body -/

theorem Prog.Stops.result {e : error} {p : Prog} (hp : p.Stops e)
    (f : Context → ResponseWriter → Request → World → error × World) (s : World) :
    (p.exec f s).1 = e := by
  induction hp generalizing s with
  | ret => rfl
  | mark _ ih => simpa [Prog.exec] using ih _
  | writer _ ih => simpa [Prog.exec] using ih _
  | chainAppend _ ih => simpa [Prog.exec] using ih _
  | chainErr _ ih => simpa [Prog.exec] using ih _

theorem Prog.Stops.invocations_eq {e : error} {p : Prog} (hp : p.Stops e)
    (f : Context → ResponseWriter → Request → World → error × World) (s : World) :
    (p.exec f s).2.invocations = s.invocations := by
  induction hp generalizing s with
  | ret => rfl
  | mark _ ih => simp [Prog.exec, ih]
  | writer _ ih => simp [Prog.exec, ih]
  | chainAppend _ ih => simp [Prog.exec, ih]
  | chainErr _ ih => simp [Prog.exec, ih]

theorem Prog.Once.result_post {post : error → error} {p : Prog} (hp : p.Once post)
    {f : Context → ResponseWriter → Request → World → error × World} {e : error}
    (hf : Returns f e) (s : World) :
    (p.exec f s).1 = post e := by
  induction hp generalizing s with
  | next hk =>
    simp only [Prog.exec]
    rw [(hk _).result, hf]
  | mark _ ih => simpa [Prog.exec] using ih _
  | writer _ ih => simpa [Prog.exec] using ih _
  | chainAppend _ ih => simpa [Prog.exec] using ih _
  | chainErr _ ih => simpa [Prog.exec] using ih _

theorem Prog.Once.invocations_append {post : error → error} {p : Prog} (hp : p.Once post)
    {f : Context → ResponseWriter → Request → World → error × World}
    {X : List (Handler × ChainCtx)} (hf : Invokes f X) (s : World) :
    (p.exec f s).2.invocations = s.invocations ++ X := by
  induction hp generalizing s with
  | next hk =>
    simp only [Prog.exec]
    rw [(hk _).invocations_eq, hf]
  | mark _ ih => simp [Prog.exec, ih]
  | writer _ ih => simp [Prog.exec, ih]
  | chainAppend _ ih => simp [Prog.exec, ih]
  | chainErr _ ih => simp [Prog.exec, ih]

theorem Prog.ReturnsOneOf.result_const {seen : List error} {p : Prog} (hp : p.ReturnsOneOf seen)
    {f : Context → ResponseWriter → Request → World → error × World} {e : error}
    (hf : Returns f e) (hseen : ∀ x ∈ seen, x = e) (s : World) :
    (p.exec f s).1 = e := by
  induction hp generalizing s with
  | ret hmem => exact hseen _ hmem
  | next _ ih =>
    simp only [Prog.exec]
    apply ih
    intro x hx
    rcases List.mem_cons.mp hx with h | h
    · rw [h, hf]
    · exact hseen x h
  | mark _ ih => simpa [Prog.exec] using ih hseen _
  | writer _ ih => simpa [Prog.exec] using ih hseen _
  | chainAppend _ ih => simpa [Prog.exec] using ih hseen _
  | chainErr _ ih => simpa [Prog.exec] using ih hseen _

theorem Prog.Stops.eq_none_of_nilIfNil {e : error} {p : Prog} (hp : p.Stops e)
    (hn : p.NilIfNil) : e = none := by
  induction hp with
  | ret => cases hn; rfl
  | mark _ ih => cases hn with | mark h => exact ih h
  | writer _ ih => cases hn with | writer h => exact ih h
  | chainAppend _ ih => cases hn with | chainAppend h => exact ih h
  | chainErr _ ih => cases hn with | chainErr h => exact ih h

theorem Prog.Once.post_none {post : error → error} {p : Prog} (hp : p.Once post)
    (hn : p.NilIfNil) : post none = none := by
  induction hp with
  | next hk => cases hn with | next h => exact (hk none).eq_none_of_nilIfNil h
  | mark _ ih => cases hn with | mark h => exact ih h
  | writer _ ih => cases hn with | writer h => exact ih h
  | chainAppend _ ih => cases hn with | chainAppend h => exact ih h
  | chainErr _ ih => cases hn with | chainErr h => exact ih h

theorem Prog.NilOnError.result_none {p : Prog} (hp : p.NilOnError)
    {f : Context → ResponseWriter → Request → World → error × World}
    (hf : ∀ ctx w r s, ∃ e : Err, (f ctx w r s).1 = some e) (s : World) :
    (p.exec f s).1 = none := by
  induction hp generalizing s with
  | ret => rfl
  | next _ ih =>
    rename_i ctx w r k _
    simp only [Prog.exec]
    obtain ⟨e, he⟩ := hf ctx w r s
    rw [he]
    exact ih e _
  | mark _ ih => simpa [Prog.exec] using ih _
  | writer _ ih => simpa [Prog.exec] using ih _
  | chainAppend _ ih => simpa [Prog.exec] using ih _
  | chainErr _ ih => simpa [Prog.exec] using ih _

/-! ## Running a cursor -/

theorem Next_nil (ctx : Context) (w : ResponseWriter) (r : Request) (s : World) :
    ChainCtx.Next [] ctx w r s = (none, s) := rfl

theorem Next_cons (h : Handler) (c : ChainCtx) (ctx : Context) (w : ResponseWriter)
    (r : Request) (s : World) :
    ChainCtx.Next (h :: c) ctx w r s
      = (h.code ctx w r).exec (ChainCtx.Next c) (s.record (Event.call h ctx w r c)) := rfl

theorem returns_nil : Returns (ChainCtx.Next []) none := fun _ _ _ _ => rfl

theorem invokes_nil : Invokes (ChainCtx.Next []) [] := fun _ _ _ s => by
  simp [Next_nil]

theorem returns_cons_of_stops {h : Handler} {e : error} (hh : h.Stops e) (c : ChainCtx) :
    Returns (ChainCtx.Next (h :: c)) e := fun ctx w r s => by
  rw [Next_cons]; exact (hh ctx w r).result _ _

theorem invokes_cons_of_stops {h : Handler}
    (hh : ∀ ctx w r, ∃ e, (h.code ctx w r).Stops e) (c : ChainCtx) :
    Invokes (ChainCtx.Next (h :: c)) [(h, c)] := fun ctx w r s => by
  obtain ⟨e, he⟩ := hh ctx w r
  rw [Next_cons, he.invocations_eq, invocations_record_call]

theorem invokes_cons_of_once {h : Handler} (hh : h.CallsNextOnce) {c : ChainCtx}
    {X : List (Handler × ChainCtx)} (hc : Invokes (ChainCtx.Next c) X) :
    Invokes (ChainCtx.Next (h :: c)) ((h, c) :: X) := fun ctx w r s => by
  obtain ⟨post, hp⟩ := hh ctx w r
  rw [Next_cons, hp.invocations_append hc, invocations_record_call]
  simp

theorem returns_cons_of_once_nil {h : Handler} (hh : h.CallsNextOnce) (hn : h.NilIfNil)
    {c : ChainCtx} (hc : Returns (ChainCtx.Next c) none) :
    Returns (ChainCtx.Next (h :: c)) none := fun ctx w r s => by
  obtain ⟨post, hp⟩ := hh ctx w r
  rw [Next_cons, hp.result_post hc, hp.post_none (hn ctx w r)]

theorem returns_cons_of_forwards {h : Handler} (hh : h.Forwards) {c : ChainCtx} {e : error}
    (hc : Returns (ChainCtx.Next c) e) :
    Returns (ChainCtx.Next (h :: c)) e := fun ctx w r s => by
  rw [Next_cons]
  exact (hh ctx w r).result_const hc (by simp) _

theorem returns_cons_of_catches {h : Handler} (hh : h.Catches) {c : ChainCtx}
    (hc : ∀ ctx w r s, ∃ e : Err, (ChainCtx.Next c ctx w r s).1 = some e) :
    Returns (ChainCtx.Next (h :: c)) none := fun ctx w r s => by
  rw [Next_cons]
  exact (hh ctx w r).2.result_none hc _

theorem schedule_zero (c : ChainCtx) : ChainCtx.schedule c 0 = [] := by
  cases c <;> rfl

theorem schedule_map_fst (c : ChainCtx) (n : Nat) :
    (ChainCtx.schedule c n).map Prod.fst = c.take n := by
  induction c generalizing n with
  | nil => simp [ChainCtx.schedule]
  | cons h c ih =>
    cases n with
    | zero => simp [ChainCtx.schedule]
    | succ n => simp [ChainCtx.schedule, ih]

theorem invoked_of_invocations {s t : World} {X : List (Handler × ChainCtx)}
    (h : t.invocations = s.invocations ++ X) :
    t.invoked = s.invoked ++ X.map Prod.fst := by
  simp [World.invoked, h]

/-- Every handler continues exactly once: each position is dispatched once, in order. -/
theorem invokes_all (L : ChainCtx) (hL : ∀ h ∈ L, h.CallsNextOnce) :
    Invokes (ChainCtx.Next L) (ChainCtx.schedule L L.length) := by
  induction L with
  | nil => exact invokes_nil
  | cons h c ih =>
    exact invokes_cons_of_once (hL h (List.mem_cons_self h c))
      (ih (fun x hx => hL x (List.mem_cons_of_mem h hx)))

theorem returns_all_nil (L : ChainCtx) (hL : ∀ h ∈ L, h.CallsNextOnce ∧ h.NilIfNil) :
    Returns (ChainCtx.Next L) none := by
  induction L with
  | nil => exact returns_nil
  | cons h c ih =>
    exact returns_cons_of_once_nil (hL h (List.mem_cons_self h c)).1
      (hL h (List.mem_cons_self h c)).2 (ih (fun x hx => hL x (List.mem_cons_of_mem h hx)))

/-- The handlers before position `k` continue exactly once and the handler at
`k` stops: positions `0..k` are dispatched once each, in order, and no other. -/
theorem invokes_upto (L : ChainCtx) (k : Nat) (hK : Handler) (hk : L[k]? = some hK)
    (hstop : ∀ ctx w r, ∃ e, (hK.code ctx w r).Stops e)
    (hpre : ∀ i h, i < k → L[i]? = some h → h.CallsNextOnce) :
    Invokes (ChainCtx.Next L) (ChainCtx.schedule L (k + 1)) := by
  induction L generalizing k with
  | nil => simp at hk
  | cons h c ih =>
    cases k with
    | zero =>
      simp at hk
      subst hk
      simpa [ChainCtx.schedule, schedule_zero] using invokes_cons_of_stops hstop c
    | succ k =>
      simp at hk
      have h0 : h.CallsNextOnce := hpre 0 h (Nat.succ_pos k) (by simp)
      have hc := ih k hk (fun i x hi hx => hpre (i + 1) x (Nat.succ_lt_succ hi) (by simpa using hx))
      simpa [ChainCtx.schedule] using invokes_cons_of_once h0 hc

/-- The handlers before position `k` forward what `Next` returned and the
handler at `k` returns `e` without continuing: every cursor from position
`i ≤ k` on returns `e`. -/
theorem returns_upto (L : ChainCtx) (k : Nat) (hK : Handler) (e : error)
    (hk : L[k]? = some hK) (hstop : hK.Stops e)
    (hpre : ∀ i h, i < k → L[i]? = some h → h.Forwards) :
    ∀ i, i ≤ k → Returns (ChainCtx.Next (L.drop i)) e := by
  induction L generalizing k with
  | nil => simp at hk
  | cons h c ih =>
    cases k with
    | zero =>
      simp at hk
      subst hk
      intro i hi
      obtain rfl : i = 0 := Nat.le_zero.mp hi
      exact returns_cons_of_stops hstop c
    | succ k =>
      simp at hk
      have hc := ih k hk (fun i x hi hx => hpre (i + 1) x (Nat.succ_lt_succ hi) (by simpa using hx))
      intro i hi
      cases i with
      | zero =>
        exact returns_cons_of_forwards (hpre 0 h (Nat.succ_pos k) (by simp)) (hc 0 (Nat.zero_le k))
      | succ i => simpa using hc i (Nat.le_of_succ_le_succ hi)

/-- The handlers before position `k` forward what `Next` returned: the whole
cursor returns what the cursor from position `k` returns. -/
theorem returns_of_forwards_before (L : ChainCtx) (k : Nat) (e : error)
    (hbase : Returns (ChainCtx.Next (L.drop k)) e)
    (hpre : ∀ i h, i < k → L[i]? = some h → h.Forwards) :
    Returns (ChainCtx.Next L) e := by
  induction k generalizing L with
  | zero => simpa using hbase
  | succ k ih =>
    cases L with
    | nil => simpa using hbase
    | cons h c =>
      have hc : Returns (ChainCtx.Next c) e :=
        ih c (by simpa using hbase)
          (fun i x hi hx => hpre (i + 1) x (Nat.succ_lt_succ hi) (by simpa using hx))
      exact returns_cons_of_forwards (hpre 0 h (Nat.succ_pos k) (by simp)) hc

/-! ## Building a chain -/

theorem Chain_fst (h : Handler) (s : World) : (Chain h s).1 = s.brk := rfl

theorem Chain_elements (h : Handler) (s : World) :
    ((Chain h s).2.heap (Chain h s).1).elements = [h] := by
  simp [Chain, HandlerChain.Chain, World.store]

theorem Chain_renderErrorFunc (h : Handler) (s : World) :
    ((Chain h s).2.heap (Chain h s).1).renderErrorFunc = BasicErrorHandler := by
  simp [Chain, HandlerChain.Chain, World.store]

theorem Chain_method_elements (chain : Nat) (h : Handler) (s : World) :
    ((HandlerChain.Chain chain h s).2.heap chain).elements = (s.heap chain).elements ++ [h] := by
  simp [HandlerChain.Chain, World.store]

theorem foldl_Chain_elements (hs : List Handler) (acc : Nat × World) :
    (hs.foldl (fun a h => HandlerChain.Chain a.1 h a.2) acc).1 = acc.1 ∧
    (((hs.foldl (fun a h => HandlerChain.Chain a.1 h a.2) acc).2.heap acc.1).elements
      = (acc.2.heap acc.1).elements ++ hs) := by
  induction hs generalizing acc with
  | nil => simp
  | cons h hs ih =>
    have := ih (HandlerChain.Chain acc.1 h acc.2)
    simp only [List.foldl_cons]
    refine ⟨this.1, ?_⟩
    have h2 : ((hs.foldl (fun a h => HandlerChain.Chain a.1 h a.2)
        (HandlerChain.Chain acc.1 h acc.2)).2.heap acc.1).elements
        = ((HandlerChain.Chain acc.1 h acc.2).2.heap acc.1).elements ++ hs := this.2
    rw [Chain_method_elements] at h2
    rw [h2]
    simp

theorem buildChain_elements (h0 : Handler) (hs : List Handler) (s : World) :
    ((buildChain h0 hs s).2.heap (buildChain h0 hs s).1).elements = h0 :: hs := by
  have := foldl_Chain_elements hs (Chain h0 s)
  unfold buildChain
  rw [this.1, this.2, Chain_elements]
  rfl

theorem Chain_method_renderErrorFunc (chain : Nat) (h : Handler) (s : World) :
    ((HandlerChain.Chain chain h s).2.heap chain).renderErrorFunc
      = (s.heap chain).renderErrorFunc := by
  simp [HandlerChain.Chain, World.store]

theorem appendTimes_chain (chain : Nat) (h : Handler) (m : Nat) (s : World) :
    ((appendTimes chain h m s).heap chain).elements
      = (s.heap chain).elements ++ List.replicate m h ∧
    ((appendTimes chain h m s).heap chain).renderErrorFunc = (s.heap chain).renderErrorFunc := by
  induction m generalizing s with
  | zero => simp [appendTimes]
  | succ m ih =>
    have := ih (HandlerChain.Chain chain h s).2
    rw [Chain_method_elements, Chain_method_renderErrorFunc] at this
    simpa [appendTimes, List.replicate_succ] using this

/-! ## The handlers of the tests and of the examples -/

theorem chainh1_once (name : Nat) (ctx : Context) (w : ResponseWriter) (r : Request) :
    ((chainh1 name).code ctx w r).Once (fun e => e) :=
  Prog.Once.mark (Prog.Once.next (fun _ => Prog.Stops.ret))

theorem chainh1_callsNextOnce (name : Nat) : (chainh1 name).CallsNextOnce :=
  fun ctx w r => ⟨_, chainh1_once name ctx w r⟩

theorem chainh1_callsNext (name : Nat) : (chainh1 name).CallsNext :=
  fun _ _ _ => Prog.CallsNext.mark Prog.CallsNext.next

theorem chainh1_nilIfNil (name : Nat) : (chainh1 name).NilIfNil :=
  fun _ _ _ => Prog.NilIfNil.mark (Prog.NilIfNil.next Prog.NilIfNil.ret)

theorem chainh1_forwards (name : Nat) : (chainh1 name).Forwards :=
  fun _ _ _ => Prog.ReturnsOneOf.mark
    (Prog.ReturnsOneOf.next (fun e => Prog.ReturnsOneOf.ret (List.mem_cons_self e [])))

theorem chainerr_stops (name : Nat) : (chainerr name).Stops (some "err") :=
  fun _ _ _ => Prog.Stops.ret

theorem chainerr_fails (name : Nat) : (chainerr name).Fails :=
  fun _ _ _ => ⟨"err", Prog.Stops.ret⟩

theorem stopsNil_stops (name : Nat) : (stopsNil name).Stops none :=
  fun _ _ _ => Prog.Stops.ret

theorem callsNextTwice_callsNext (name : Nat) : (callsNextTwice name).CallsNext :=
  fun _ _ _ => Prog.CallsNext.next

theorem callsNextTwice_nilIfNil (name : Nat) : (callsNextTwice name).NilIfNil :=
  fun _ _ _ => Prog.NilIfNil.next (Prog.NilIfNil.next Prog.NilIfNil.ret)

theorem callsNextTwice_forwards (name : Nat) : (callsNextTwice name).Forwards :=
  fun _ _ _ => Prog.ReturnsOneOf.next (fun _ =>
    Prog.ReturnsOneOf.next (fun e => Prog.ReturnsOneOf.ret (List.mem_cons_self e _)))

theorem swallows_catches (name : Nat) : (swallows name).Catches :=
  fun _ _ _ => ⟨Prog.CallsNext.next, Prog.NilOnError.next (fun _ => Prog.NilOnError.ret)⟩

/-! ## The error renderer -/

theorem exec_rendered (f : Context → ResponseWriter → Request → World → error × World)
    (hf : ∀ ctx w r s, (f ctx w r s).2.rendered = s.rendered) :
    ∀ (p : Prog) (s : World), (p.exec f s).2.rendered = s.rendered
  | .ret _, _ => rfl
  | .next ctx w r k, s => by
      simp only [Prog.exec]
      rw [exec_rendered f hf (k _) _, hf]
  | .mark _ k, s => by
      simp only [Prog.exec]
      rw [exec_rendered f hf k _, rendered_record_mark]
  | .writer _ _ k, s => by
      simp only [Prog.exec]
      rw [exec_rendered f hf k _, rendered_record_writer]
  | .chainAppend _ _ k, s => by
      simp only [Prog.exec]
      rw [exec_rendered f hf k _, Chain_method_rendered]
  | .chainErr _ _ k, s => by
      simp only [Prog.exec]
      rw [exec_rendered f hf k _, Err_method_rendered]

theorem Next_rendered (c : ChainCtx) (ctx : Context) (w : ResponseWriter) (r : Request)
    (s : World) : (ChainCtx.Next c ctx w r s).2.rendered = s.rendered := by
  induction c generalizing ctx w r s with
  | nil => rfl
  | cons h c ih =>
    rw [Next_cons, exec_rendered _ ih, rendered_record_call]

theorem foldl_writer_trace (w : ResponseWriter) (ops : List WriterOp) (s : World) :
    (ops.foldl (fun t op => t.record (Event.writer w op)) s).trace
      = s.trace ++ ops.map (Event.writer w) := by
  induction ops generalizing s with
  | nil => simp
  | cons op ops ih =>
    rw [List.foldl_cons, ih]
    simp [World.record]

theorem call_trace (f : RenderErrorFunc) (w : ResponseWriter) (err : error) (s : World) :
    (f.call w err s).trace
      = s.trace ++ Event.render f w err :: (f.body err).map (Event.writer w) := by
  unfold RenderErrorFunc.call
  rw [foldl_writer_trace]
  simp [World.record]

theorem call_rendered (f : RenderErrorFunc) (w : ResponseWriter) (err : error) (s : World) :
    (f.call w err s).rendered = s.rendered ++ [(f, w, err)] := by
  simp [World.rendered, call_trace, Event.rendering, List.filterMap_append,
    List.filterMap_map, Function.comp_def]

theorem ServeHTTP_rendered (chain : Nat) (writer : ResponseWriter) (request : Request)
    (s : World) :
    (HandlerChain.ServeHTTP chain writer request s).rendered
      = s.rendered ++
        match (HandlerChain.HandleRequest chain request.Context writer request
          (s.heap chain).elements s).1 with
        | some e =>
            [(((HandlerChain.HandleRequest chain request.Context writer request
              (s.heap chain).elements s).2.heap chain).renderErrorFunc, writer, some e)]
        | none => [] := by
  unfold HandlerChain.ServeHTTP
  have hr : (HandlerChain.HandleRequest chain request.Context writer request
      (s.heap chain).elements s).2.rendered = s.rendered := Next_rendered _ _ _ _ _
  cases h : (HandlerChain.HandleRequest chain request.Context writer request
      (s.heap chain).elements s).1 with
  | none => simp [h, hr]
  | some e => simp [h, hr, call_rendered]

/-! ## What a run leaves of a builder -/

theorem Chain_method_heap_renderer (p : Nat) (h : Handler) (s : World) (chain : Nat) :
    ((HandlerChain.Chain p h s).2.heap chain).renderErrorFunc
      = (s.heap chain).renderErrorFunc := by
  by_cases hp : chain = p
  · subst hp; simp [HandlerChain.Chain, World.store]
  · simp [HandlerChain.Chain, World.store, Function.update_noteq hp]

theorem Chain_method_heap_other (p : Nat) (h : Handler) (s : World) (chain : Nat)
    (hp : p ≠ chain) : (HandlerChain.Chain p h s).2.heap chain = s.heap chain := by
  simp [HandlerChain.Chain, World.store, Function.update_noteq (Ne.symm hp)]

theorem Err_method_heap_other (p : Nat) (f : RenderErrorFunc) (s : World) (chain : Nat)
    (hp : p ≠ chain) : (HandlerChain.Err p f s).2.heap chain = s.heap chain := by
  simp [HandlerChain.Err, World.store, Function.update_noteq (Ne.symm hp)]

theorem Prog.NoErrOn.renderer_kept {chain : Nat} {p : Prog} (hp : p.NoErrOn chain)
    {f : Context → ResponseWriter → Request → World → error × World}
    (hf : ∀ ctx w r s, ((f ctx w r s).2.heap chain).renderErrorFunc
      = (s.heap chain).renderErrorFunc) (s : World) :
    ((p.exec f s).2.heap chain).renderErrorFunc = (s.heap chain).renderErrorFunc := by
  induction hp generalizing s with
  | ret => rfl
  | next _ ih =>
    simp only [Prog.exec]
    rw [ih, hf]
  | mark _ ih => simp only [Prog.exec]; rw [ih]; rfl
  | writer _ ih => simp only [Prog.exec]; rw [ih]; rfl
  | chainAppend _ ih => simp only [Prog.exec]; rw [ih, Chain_method_heap_renderer]
  | chainErr hne _ ih => simp only [Prog.exec]; rw [ih, Err_method_heap_other _ _ _ _ hne]

theorem Prog.Keeps.builder_kept {chain : Nat} {p : Prog} (hp : p.Keeps chain)
    {f : Context → ResponseWriter → Request → World → error × World}
    (hf : ∀ ctx w r s, (f ctx w r s).2.heap chain = s.heap chain) (s : World) :
    (p.exec f s).2.heap chain = s.heap chain := by
  induction hp generalizing s with
  | ret => rfl
  | next _ ih =>
    simp only [Prog.exec]
    rw [ih, hf]
  | mark _ ih => simp only [Prog.exec]; rw [ih]; rfl
  | writer _ ih => simp only [Prog.exec]; rw [ih]; rfl
  | chainAppend hne _ ih => simp only [Prog.exec]; rw [ih, Chain_method_heap_other _ _ _ _ hne]
  | chainErr hne _ ih => simp only [Prog.exec]; rw [ih, Err_method_heap_other _ _ _ _ hne]

theorem Next_renderer_kept (chain : Nat) (c : ChainCtx) (hc : ∀ h ∈ c, h.NoErrOn chain)
    (ctx : Context) (w : ResponseWriter) (r : Request) (s : World) :
    ((ChainCtx.Next c ctx w r s).2.heap chain).renderErrorFunc
      = (s.heap chain).renderErrorFunc := by
  induction c generalizing ctx w r s with
  | nil => rfl
  | cons h c ih =>
    rw [Next_cons, (hc h (List.mem_cons_self h c) ctx w r).renderer_kept
      (fun ctx w r s => ih (fun x hx => hc x (List.mem_cons_of_mem h hx)) ctx w r s)]
    rfl

theorem Next_builder_kept (chain : Nat) (c : ChainCtx) (hc : ∀ h ∈ c, h.Keeps chain)
    (ctx : Context) (w : ResponseWriter) (r : Request) (s : World) :
    (ChainCtx.Next c ctx w r s).2.heap chain = s.heap chain := by
  induction c generalizing ctx w r s with
  | nil => rfl
  | cons h c ih =>
    rw [Next_cons, (hc h (List.mem_cons_self h c) ctx w r).builder_kept
      (fun ctx w r s => ih (fun x hx => hc x (List.mem_cons_of_mem h hx)) ctx w r s)]
    rfl

theorem foldl_writer_heap (w : ResponseWriter) (ops : List WriterOp) (s : World) :
    (ops.foldl (fun t op => t.record (Event.writer w op)) s).heap = s.heap ∧
    (ops.foldl (fun t op => t.record (Event.writer w op)) s).brk = s.brk := by
  induction ops generalizing s with
  | nil => simp
  | cons op ops ih =>
    rw [List.foldl_cons]
    exact ih _

theorem call_heap (f : RenderErrorFunc) (w : ResponseWriter) (err : error) (s : World) :
    (f.call w err s).heap = s.heap ∧ (f.call w err s).brk = s.brk := by
  unfold RenderErrorFunc.call
  exact foldl_writer_heap w _ _

theorem chainh1_noErrOn (name chain : Nat) : (chainh1 name).NoErrOn chain :=
  fun _ _ _ => Prog.NoErrOn.mark (Prog.NoErrOn.next (fun _ => Prog.NoErrOn.ret))

theorem chainerr_noErrOn (name chain : Nat) : (chainerr name).NoErrOn chain :=
  fun _ _ _ => Prog.NoErrOn.ret

theorem chainh1_keeps (name chain : Nat) : (chainh1 name).Keeps chain :=
  fun _ _ _ => Prog.Keeps.mark (Prog.Keeps.next (fun _ => Prog.Keeps.ret))

theorem chainerr_keeps (name chain : Nat) : (chainerr name).Keeps chain :=
  fun _ _ _ => Prog.Keeps.ret

/-! ## Handlers with the same body -/

theorem effects_record (s : World) (e : Event) :
    (s.record e).effects = s.effects ++ [e].filter (fun e => !e.isCall) := by
  simp [World.effects, World.record]

theorem sameEffects_record_call {s t : World} (h : SameEffects s t) (a b : Handler)
    (ctx : Context) (w : ResponseWriter) (r : Request) (ca cb : ChainCtx) :
    SameEffects (s.record (Event.call a ctx w r ca)) (t.record (Event.call b ctx w r cb)) := by
  obtain ⟨h1, h2, h3, h4⟩ := h
  refine ⟨h1, h2, ?_, ?_⟩
  · rw [effects_record, effects_record, h3]; rfl
  · simp [h4]

theorem sameEffects_record_mark {s t : World} (h : SameEffects s t) (tag : Nat) :
    SameEffects (s.record (Event.mark tag)) (t.record (Event.mark tag)) := by
  obtain ⟨h1, h2, h3, h4⟩ := h
  refine ⟨h1, h2, ?_, ?_⟩
  · rw [effects_record, effects_record, h3]
  · simp [h4]

theorem sameEffects_record_writer {s t : World} (h : SameEffects s t) (w : ResponseWriter)
    (op : WriterOp) :
    SameEffects (s.record (Event.writer w op)) (t.record (Event.writer w op)) := by
  obtain ⟨h1, h2, h3, h4⟩ := h
  refine ⟨h1, h2, ?_, ?_⟩
  · rw [effects_record, effects_record, h3]
  · simp [h4]

theorem sameEffects_Chain {s t : World} (h : SameEffects s t) (p : Nat) (x : Handler) :
    SameEffects (HandlerChain.Chain p x s).2 (HandlerChain.Chain p x t).2 := by
  obtain ⟨h1, h2, h3, h4⟩ := h
  refine ⟨?_, h2, h3, h4⟩
  simp [HandlerChain.Chain, World.store, h1]

theorem sameEffects_Err {s t : World} (h : SameEffects s t) (p : Nat) (f : RenderErrorFunc) :
    SameEffects (HandlerChain.Err p f s).2 (HandlerChain.Err p f t).2 := by
  obtain ⟨h1, h2, h3, h4⟩ := h
  refine ⟨?_, h2, h3, h4⟩
  simp [HandlerChain.Err, World.store, h1]

theorem exec_sameEffects
    (f g : Context → ResponseWriter → Request → World → error × World)
    (hfg : ∀ ctx w r s t, SameEffects s t →
      (f ctx w r s).1 = (g ctx w r t).1 ∧ SameEffects (f ctx w r s).2 (g ctx w r t).2) :
    ∀ (p : Prog) (s t : World), SameEffects s t →
      (p.exec f s).1 = (p.exec g t).1 ∧ SameEffects (p.exec f s).2 (p.exec g t).2
  | .ret _, _, _, h => ⟨rfl, h⟩
  | .next ctx w r k, s, t, h => by
      simp only [Prog.exec]
      have h1 := hfg ctx w r s t h
      rw [h1.1]
      exact exec_sameEffects f g hfg (k _) _ _ h1.2
  | .mark tag k, s, t, h => by
      simp only [Prog.exec]
      exact exec_sameEffects f g hfg k _ _ (sameEffects_record_mark h tag)
  | .writer w op k, s, t, h => by
      simp only [Prog.exec]
      exact exec_sameEffects f g hfg k _ _ (sameEffects_record_writer h w op)
  | .chainAppend p x k, s, t, h => by
      simp only [Prog.exec]
      exact exec_sameEffects f g hfg k _ _ (sameEffects_Chain h p x)
  | .chainErr p x k, s, t, h => by
      simp only [Prog.exec]
      exact exec_sameEffects f g hfg k _ _ (sameEffects_Err h p x)

theorem Next_sameEffects (a b : ChainCtx) (hab : List.Forall₂ (fun x y => x.code = y.code) a b)
    (ctx : Context) (w : ResponseWriter) (r : Request) (s t : World) (h : SameEffects s t) :
    (ChainCtx.Next a ctx w r s).1 = (ChainCtx.Next b ctx w r t).1 ∧
    SameEffects (ChainCtx.Next a ctx w r s).2 (ChainCtx.Next b ctx w r t).2 := by
  induction hab generalizing ctx w r s t with
  | nil => exact ⟨rfl, h⟩
  | cons hxy _ ih =>
    rw [Next_cons, Next_cons, hxy]
    exact exec_sameEffects _ _ (fun ctx w r s t h => ih ctx w r s t h) _ _ _
      (sameEffects_record_call h _ _ ctx w r _ _)

theorem styles_same_code (ps : List (Nat × HandlerFunc)) :
    List.Forall₂ (fun x y => x.code = y.code) (ps.map functionStyle) (ps.map objectStyle) := by
  induction ps with
  | nil => exact List.Forall₂.nil
  | cons p ps ih => exact List.Forall₂.cons rfl ih

/-! ## The cursors of a run -/

theorem exec_fixed (P : Handler × ChainCtx → Prop)
    (f : Context → ResponseWriter → Request → World → error × World)
    (hf : ∀ ctx w r, ∃ e X, (∀ x ∈ X, P x) ∧
      ∀ s, (f ctx w r s).1 = e ∧ (f ctx w r s).2.invocations = s.invocations ++ X) :
    ∀ p : Prog, ∃ e X, (∀ x ∈ X, P x) ∧
      ∀ s, (p.exec f s).1 = e ∧ (p.exec f s).2.invocations = s.invocations ++ X
  | .ret e => ⟨e, [], by simp, fun s => ⟨rfl, by simp [Prog.exec]⟩⟩
  | .next ctx w r k => by
      obtain ⟨e1, X1, hP1, h1⟩ := hf ctx w r
      obtain ⟨e2, X2, hP2, h2⟩ := exec_fixed P f hf (k e1)
      refine ⟨e2, X1 ++ X2, ?_, fun s => ?_⟩
      · intro x hx
        rcases List.mem_append.mp hx with hx | hx
        · exact hP1 x hx
        · exact hP2 x hx
      · simp only [Prog.exec]
        rw [(h1 s).1]
        exact ⟨(h2 _).1, by rw [(h2 _).2, (h1 s).2, List.append_assoc]⟩
  | .mark tag k => by
      obtain ⟨e, X, hP, h⟩ := exec_fixed P f hf k
      exact ⟨e, X, hP, fun s => by
        simp only [Prog.exec]
        exact ⟨(h _).1, by rw [(h _).2, invocations_record_mark]⟩⟩
  | .writer w op k => by
      obtain ⟨e, X, hP, h⟩ := exec_fixed P f hf k
      exact ⟨e, X, hP, fun s => by
        simp only [Prog.exec]
        exact ⟨(h _).1, by rw [(h _).2, invocations_record_writer]⟩⟩
  | .chainAppend p x k => by
      obtain ⟨e, X, hP, h⟩ := exec_fixed P f hf k
      exact ⟨e, X, hP, fun s => by
        simp only [Prog.exec]
        exact ⟨(h _).1, by rw [(h _).2, Chain_method_invocations]⟩⟩
  | .chainErr p x k => by
      obtain ⟨e, X, hP, h⟩ := exec_fixed P f hf k
      exact ⟨e, X, hP, fun s => by
        simp only [Prog.exec]
        exact ⟨(h _).1, by rw [(h _).2, Err_method_invocations]⟩⟩

/-- A run of the cursor `L[i:]` has a result and a list of dispatches that do
not depend on the world, and every dispatch is of a position `j` of `L` with
the cursor `L[j+1:]`. -/
theorem Next_fixed (L : ChainCtx) :
    ∀ (c : ChainCtx) (i : Nat), L.drop i = c → ∀ ctx w r, ∃ e X,
      (∀ x ∈ X, ∃ j, L[j]? = some x.1 ∧ x.2 = L.drop (j + 1)) ∧
      ∀ s, (ChainCtx.Next c ctx w r s).1 = e ∧
        (ChainCtx.Next c ctx w r s).2.invocations = s.invocations ++ X := by
  intro c
  induction c with
  | nil => exact fun _ _ _ _ _ => ⟨none, [], by simp, fun s => ⟨rfl, by simp [Next_nil]⟩⟩
  | cons h c ih =>
    intro i hd ctx w r
    have hget : L[i]? = some h := by
      have : (L.drop i)[0]? = some h := by rw [hd]; simp
      simpa using this
    have htail : L.drop (i + 1) = c := by
      have := congrArg List.tail hd
      simpa using this
    obtain ⟨e, X, hP, hrun⟩ := exec_fixed _ (ChainCtx.Next c) (ih (i + 1) htail) (h.code ctx w r)
    refine ⟨e, (h, c) :: X, ?_, fun s => ?_⟩
    · intro x hx
      rcases List.mem_cons.mp hx with hx | hx
      · subst hx
        exact ⟨i, hget, htail.symm⟩
      · exact hP x hx
    · rw [Next_cons]
      exact ⟨(hrun _).1, by rw [(hrun _).2, invocations_record_call]; simp⟩

theorem call_invocations (f : RenderErrorFunc) (w : ResponseWriter) (err : error) (s : World) :
    (f.call w err s).invocations = s.invocations := by
  simp [World.invocations, call_trace, Event.invocation, List.filterMap_append,
    List.filterMap_map, Function.comp_def]

theorem ServeHTTP_invocations (chain : Nat) (writer : ResponseWriter) (request : Request)
    (s : World) :
    (HandlerChain.ServeHTTP chain writer request s).invocations
      = (ChainCtx.Next (s.heap chain).elements request.Context writer request s).2.invocations := by
  unfold HandlerChain.ServeHTTP HandlerChain.HandleRequest
  cases h : (ChainCtx.Next (s.heap chain).elements request.Context writer request s).1 with
  | none => simp [h]
  | some e => simp [h, call_invocations]

theorem Chain_method_heap_elements (p : Nat) (h : Handler) (s : World) (chain : Nat) :
    ∃ A, ((HandlerChain.Chain p h s).2.heap chain).elements = (s.heap chain).elements ++ A := by
  by_cases hp : p = chain
  · subst hp
    exact ⟨[h], Chain_method_elements _ _ _⟩
  · exact ⟨[], by rw [Chain_method_heap_other _ _ _ _ hp]; simp⟩

theorem Err_method_heap_elements (p : Nat) (f : RenderErrorFunc) (s : World) (chain : Nat) :
    ((HandlerChain.Err p f s).2.heap chain).elements = (s.heap chain).elements := by
  by_cases hp : p = chain
  · subst hp; simp [HandlerChain.Err, World.store]
  · rw [Err_method_heap_other _ _ _ _ hp]

theorem exec_elements_append (chain : Nat)
    (f : Context → ResponseWriter → Request → World → error × World)
    (hf : ∀ ctx w r s, ∃ A,
      ((f ctx w r s).2.heap chain).elements = (s.heap chain).elements ++ A) :
    ∀ (p : Prog) (s : World), ∃ A,
      ((p.exec f s).2.heap chain).elements = (s.heap chain).elements ++ A
  | .ret _, _ => ⟨[], by simp [Prog.exec]⟩
  | .next ctx w r k, s => by
      obtain ⟨A1, h1⟩ := hf ctx w r s
      obtain ⟨A2, h2⟩ := exec_elements_append chain f hf (k (f ctx w r s).1) (f ctx w r s).2
      exact ⟨A1 ++ A2, by simp only [Prog.exec]; rw [h2, h1, List.append_assoc]⟩
  | .mark tag k, s => by
      obtain ⟨A, h⟩ := exec_elements_append chain f hf k (s.record (Event.mark tag))
      exact ⟨A, by simp only [Prog.exec]; rw [h]; rfl⟩
  | .writer w op k, s => by
      obtain ⟨A, h⟩ := exec_elements_append chain f hf k (s.record (Event.writer w op))
      exact ⟨A, by simp only [Prog.exec]; rw [h]; rfl⟩
  | .chainAppend p x k, s => by
      obtain ⟨A1, h1⟩ := Chain_method_heap_elements p x s chain
      obtain ⟨A2, h2⟩ := exec_elements_append chain f hf k (HandlerChain.Chain p x s).2
      exact ⟨A1 ++ A2, by simp only [Prog.exec]; rw [h2, h1, List.append_assoc]⟩
  | .chainErr p x k, s => by
      obtain ⟨A, h⟩ := exec_elements_append chain f hf k (HandlerChain.Err p x s).2
      exact ⟨A, by simp only [Prog.exec]; rw [h, Err_method_heap_elements]⟩

theorem Next_elements_append (chain : Nat) (c : ChainCtx) (ctx : Context)
    (w : ResponseWriter) (r : Request) (s : World) :
    ∃ A, ((ChainCtx.Next c ctx w r s).2.heap chain).elements = (s.heap chain).elements ++ A := by
  induction c generalizing ctx w r s with
  | nil => exact ⟨[], by simp [Next_nil]⟩
  | cons h c ih =>
    obtain ⟨A, hA⟩ := exec_elements_append chain (ChainCtx.Next c)
      (fun ctx w r s => ih ctx w r s) (h.code ctx w r) (s.record (Event.call h ctx w r c))
    exact ⟨A, by rw [Next_cons, hA]; rfl⟩

theorem ServeHTTP_elements_append (chain : Nat) (writer : ResponseWriter) (request : Request)
    (s : World) :
    ∃ A, ((HandlerChain.ServeHTTP chain writer request s).heap chain).elements
      = (s.heap chain).elements ++ A := by
  obtain ⟨A, hA⟩ := Next_elements_append chain (s.heap chain).elements request.Context writer
    request s
  refine ⟨A, ?_⟩
  unfold HandlerChain.ServeHTTP HandlerChain.HandleRequest
  cases h : (ChainCtx.Next (s.heap chain).elements request.Context writer request s).1 with
  | none => simpa [h] using hA
  | some e =>
    simp only [h]
    rw [(call_heap _ _ _ _).1]
    exact hA

theorem Next_cons_dispatches_head (h : Handler) (c : ChainCtx) (ctx : Context)
    (w : ResponseWriter) (r : Request) (t : World) :
    ∃ Y, (ChainCtx.Next (h :: c) ctx w r t).2.invocations = t.invocations ++ (h, c) :: Y := by
  obtain ⟨_, X, _, hrun⟩ := exec_fixed (fun _ => True) (ChainCtx.Next c)
    (fun ctx w r => by
      obtain ⟨e, X, _, hX⟩ := Next_fixed c c 0 (List.drop_zero c) ctx w r
      exact ⟨e, X, fun _ _ => trivial, hX⟩)
    (h.code ctx w r)
  exact ⟨X, by rw [Next_cons, (hrun _).2, invocations_record_call]; simp⟩

/-! ## Counting dispatches -/

theorem Prog.Stops.nextArgs_none {e : error} {p : Prog} (hp : p.Stops e) :
    p.nextArgs = none := by
  induction hp with
  | ret => rfl
  | mark _ ih => simpa [Prog.nextArgs] using ih
  | writer _ ih => simpa [Prog.nextArgs] using ih
  | chainAppend _ ih => simpa [Prog.nextArgs] using ih
  | chainErr _ ih => simpa [Prog.nextArgs] using ih

theorem Prog.Once.nextArgs_some {post : error → error} {p : Prog} (hp : p.Once post) :
    ∃ a, p.nextArgs = some a ∧
      ∀ (f : Context → ResponseWriter → Request → World → error × World) (s : World),
        ∃ s1, s1.invocations = s.invocations ∧
          (p.exec f s).2.invocations = (f a.1 a.2.1 a.2.2 s1).2.invocations := by
  induction hp with
  | next hk =>
    rename_i ctx w r k
    exact ⟨(ctx, w, r), rfl, fun f s => ⟨s, rfl, by
      simp only [Prog.exec]
      rw [(hk _).invocations_eq]⟩⟩
  | mark _ ih =>
    obtain ⟨a, ha, hrun⟩ := ih
    exact ⟨a, by simpa [Prog.nextArgs] using ha, fun f s => by
      obtain ⟨s1, h1, h2⟩ := hrun f (s.record (Event.mark _))
      exact ⟨s1, by rw [h1, invocations_record_mark], by simpa [Prog.exec] using h2⟩⟩
  | writer _ ih =>
    obtain ⟨a, ha, hrun⟩ := ih
    exact ⟨a, by simpa [Prog.nextArgs] using ha, fun f s => by
      obtain ⟨s1, h1, h2⟩ := hrun f (s.record (Event.writer _ _))
      exact ⟨s1, by rw [h1, invocations_record_writer], by simpa [Prog.exec] using h2⟩⟩
  | chainAppend _ ih =>
    obtain ⟨a, ha, hrun⟩ := ih
    exact ⟨a, by simpa [Prog.nextArgs] using ha, fun f s => by
      obtain ⟨s1, h1, h2⟩ := hrun f (HandlerChain.Chain _ _ s).2
      exact ⟨s1, by rw [h1, Chain_method_invocations], by simpa [Prog.exec] using h2⟩⟩
  | chainErr _ ih =>
    obtain ⟨a, ha, hrun⟩ := ih
    exact ⟨a, by simpa [Prog.nextArgs] using ha, fun f s => by
      obtain ⟨s1, h1, h2⟩ := hrun f (HandlerChain.Err _ _ s).2
      exact ⟨s1, by rw [h1, Err_method_invocations], by simpa [Prog.exec] using h2⟩⟩

theorem Next_count (c : ChainCtx) (hc : ∀ h ∈ c, h.AtMostOnce) (ctx : Context)
    (w : ResponseWriter) (r : Request) (s : World) :
    (ChainCtx.Next c ctx w r s).2.invocations.length
      = s.invocations.length + min c.length (1 + ChainCtx.continuing c ctx w r) := by
  induction c generalizing ctx w r s with
  | nil => simp [Next_nil]
  | cons h c ih =>
    have ihc := ih (fun x hx => hc x (List.mem_cons_of_mem h hx))
    rw [Next_cons]
    rcases hc h (List.mem_cons_self h c) ctx w r with ⟨e, he⟩ | ⟨post, hp⟩
    · rw [he.invocations_eq, invocations_record_call]
      simp only [ChainCtx.continuing, he.nextArgs_none, List.length_append, List.length_cons,
        List.length_nil]
      omega
    · obtain ⟨a, ha, hrun⟩ := hp.nextArgs_some
      obtain ⟨s1, h1, h2⟩ := hrun (ChainCtx.Next c) (s.record (Event.call h ctx w r c))
      rw [h2, ihc, h1, invocations_record_call]
      simp only [ChainCtx.continuing, ha, List.length_append, List.length_cons,
        List.length_nil]
      omega

theorem Prog.Times.invocations_times {m : Nat} {p : Prog} (hp : p.Times m)
    {f : Context → ResponseWriter → Request → World → error × World}
    {X : List (Handler × ChainCtx)} (hf : Invokes f X) (s : World) :
    (p.exec f s).2.invocations = s.invocations ++ timesList m X := by
  induction hp generalizing s with
  | ret => simp [Prog.exec, timesList]
  | next _ ih =>
    simp only [Prog.exec]
    rw [ih, hf, timesList, List.append_assoc]
  | mark _ ih => simp [Prog.exec, ih]
  | writer _ ih => simp [Prog.exec, ih]
  | chainAppend _ ih => simp [Prog.exec, ih]
  | chainErr _ ih => simp [Prog.exec, ih]

theorem map_timesList {α β : Type} (g : α → β) (m : Nat) (X : List α) :
    (timesList m X).map g = timesList m (X.map g) := by
  induction m with
  | zero => rfl
  | succ m ih => simp [timesList, ih]

theorem length_timesList {α : Type} (m : Nat) (X : List α) :
    (timesList m X).length = m * X.length := by
  induction m with
  | zero => simp [timesList]
  | succ m ih => simp [timesList, ih, Nat.succ_mul, Nat.add_comm]

theorem chainh1_atMostOnce (name : Nat) : (chainh1 name).AtMostOnce :=
  fun ctx w r => Or.inr ⟨_, chainh1_once name ctx w r⟩

theorem chainerr_atMostOnce (name : Nat) : (chainerr name).AtMostOnce :=
  fun _ _ _ => Or.inl ⟨_, Prog.Stops.ret⟩

theorem callsNextTwice_times (name : Nat) : (callsNextTwice name).CallsNextTimes 2 :=
  fun _ _ _ => Prog.Times.next (fun _ => Prog.Times.next (fun _ => Prog.Times.ret))

/-! ## The last renderer written -/

theorem lastWrite_append (d : RenderErrorFunc) (a b : List RenderErrorFunc) :
    lastWrite d (a ++ b) = lastWrite (lastWrite d a) b := by
  simp [lastWrite, List.foldl_append]

theorem exec_renderer_last (chain : Nat)
    (f : Context → ResponseWriter → Request → World → error × World)
    (ge : Context → ResponseWriter → Request → World → List RenderErrorFunc)
    (hf : ∀ ctx w r s, ((f ctx w r s).2.heap chain).renderErrorFunc
      = lastWrite (s.heap chain).renderErrorFunc (ge ctx w r s)) :
    ∀ (p : Prog) (s : World), ((p.exec f s).2.heap chain).renderErrorFunc
      = lastWrite (s.heap chain).renderErrorFunc (p.errsOn chain f ge s)
  | .ret _, _ => rfl
  | .next ctx w r k, s => by
      simp only [Prog.exec, Prog.errsOn]
      rw [exec_renderer_last chain f ge hf (k _) _, hf, lastWrite_append]
  | .mark tag k, s => by
      simp only [Prog.exec, Prog.errsOn]
      rw [exec_renderer_last chain f ge hf k _]
      rfl
  | .writer w op k, s => by
      simp only [Prog.exec, Prog.errsOn]
      rw [exec_renderer_last chain f ge hf k _]
      rfl
  | .chainAppend p x k, s => by
      simp only [Prog.exec, Prog.errsOn]
      rw [exec_renderer_last chain f ge hf k _, Chain_method_heap_renderer]
  | .chainErr p x k, s => by
      simp only [Prog.exec, Prog.errsOn]
      rw [exec_renderer_last chain f ge hf k _, lastWrite_append]
      by_cases hp : p = chain
      · subst hp
        simp [HandlerChain.Err, World.store, lastWrite]
      · simp [hp, lastWrite, Err_method_heap_other _ _ _ _ hp]

/-- After a run of a cursor the renderer of a builder is the last one the
handlers wrote during the run, or the one it had when none wrote. -/
theorem Next_renderer_last (chain : Nat) (c : ChainCtx) (ctx : Context) (w : ResponseWriter)
    (r : Request) (s : World) :
    ((ChainCtx.Next c ctx w r s).2.heap chain).renderErrorFunc
      = lastWrite (s.heap chain).renderErrorFunc (ChainCtx.errsOn chain c ctx w r s) := by
  induction c generalizing ctx w r s with
  | nil => rfl
  | cons h c ih =>
    rw [Next_cons, ChainCtx.errsOn,
      exec_renderer_last chain (ChainCtx.Next c) (ChainCtx.errsOn chain c)
        (fun ctx w r s => ih ctx w r s)]
    rfl

theorem Prog.NoErrOn.errsOn_nil {chain : Nat} {p : Prog} (hp : p.NoErrOn chain)
    (f : Context → ResponseWriter → Request → World → error × World)
    {ge : Context → ResponseWriter → Request → World → List RenderErrorFunc}
    (hge : ∀ ctx w r s, ge ctx w r s = []) (s : World) :
    p.errsOn chain f ge s = [] := by
  induction hp generalizing s with
  | ret => rfl
  | next _ ih => simp only [Prog.errsOn]; rw [hge, ih]; rfl
  | mark _ ih => simp only [Prog.errsOn]; rw [ih]
  | writer _ ih => simp only [Prog.errsOn]; rw [ih]
  | chainAppend _ ih => simp only [Prog.errsOn]; rw [ih]
  | chainErr hne _ ih => simp only [Prog.errsOn]; rw [ih]; simp [hne]

/-- Handlers that never call `Err` on the builder make no such call in any run. -/
theorem errsOn_nil_of_noErrOn (chain : Nat) (c : ChainCtx) (hc : ∀ h ∈ c, h.NoErrOn chain)
    (ctx : Context) (w : ResponseWriter) (r : Request) (s : World) :
    ChainCtx.errsOn chain c ctx w r s = [] := by
  induction c generalizing ctx w r s with
  | nil => rfl
  | cons h c ih =>
    rw [ChainCtx.errsOn]
    exact (hc h (List.mem_cons_self h c) ctx w r).errsOn_nil _
      (fun ctx w r s => ih (fun x hx => hc x (List.mem_cons_of_mem h hx)) ctx w r s) _

/-! ## The claims -/

/-- C1 (amended).  For every chain built as `Chain(h0).Chain(h1)...Chain(hN-1)`
in which each handler calls `Next` exactly once on the cursor it received and
returns no error, `HandleRequest` on the chain's own element list returns nil
and the handlers are invoked once each in insertion order `h0, ..., hN-1`, the
handler at position `i` with the cursor that follows it. -/
theorem C1_each_continues_once_all_run (h0 : Handler) (hs : List Handler)
    (hL : ∀ h ∈ h0 :: hs, h.CallsNextOnce ∧ h.NilIfNil)
    (ctx : Context) (w : ResponseWriter) (r : Request) (s : World) :
    (runOwnElements (buildChain h0 hs s).1 ctx w r (buildChain h0 hs s).2).1 = none ∧
    (runOwnElements (buildChain h0 hs s).1 ctx w r (buildChain h0 hs s).2).2.invoked
      = (buildChain h0 hs s).2.invoked ++ (h0 :: hs) ∧
    (runOwnElements (buildChain h0 hs s).1 ctx w r (buildChain h0 hs s).2).2.invocations
      = (buildChain h0 hs s).2.invocations ++ ChainCtx.schedule (h0 :: hs) (hs.length + 1) := by
  unfold runOwnElements HandlerChain.HandleRequest
  rw [buildChain_elements]
  have hinv := invokes_all (h0 :: hs) (fun h hh => (hL h hh).1) ctx w r (buildChain h0 hs s).2
  refine ⟨returns_all_nil (h0 :: hs) hL ctx w r _, ?_, hinv⟩
  have := invoked_of_invocations hinv
  rw [schedule_map_fst] at this
  simpa using this

/-- C1 at the chain of `TestChain`: `Chain(&a).Chain(&b).Chain(&c)`. -/
theorem C1_each_continues_once_all_run_witness :
    (∀ h ∈ [chainh1 1, chainh1 2, chainh1 3], h.CallsNextOnce ∧ h.NilIfNil) ∧
    (runOwnElements (buildChain (chainh1 1) [chainh1 2, chainh1 3] World.init).1 0 0 ⟨0, 0⟩
      (buildChain (chainh1 1) [chainh1 2, chainh1 3] World.init).2).1 = none ∧
    (runOwnElements (buildChain (chainh1 1) [chainh1 2, chainh1 3] World.init).1 0 0 ⟨0, 0⟩
      (buildChain (chainh1 1) [chainh1 2, chainh1 3] World.init).2).2.invoked
      = [chainh1 1, chainh1 2, chainh1 3] ∧
    (runOwnElements (buildChain (chainh1 1) [chainh1 2, chainh1 3] World.init).1 0 0 ⟨0, 0⟩
      (buildChain (chainh1 1) [chainh1 2, chainh1 3] World.init).2).2.marks = [1, 2, 3] :=
  have hyp : ∀ h ∈ [chainh1 1, chainh1 2, chainh1 3], h.CallsNextOnce ∧ h.NilIfNil := by
    intro h hh
    simp only [List.mem_cons, List.mem_singleton, List.not_mem_nil, or_false] at hh
    rcases hh with rfl | rfl | rfl <;> exact ⟨chainh1_callsNextOnce _, chainh1_nilIfNil _⟩
  have run := C1_each_continues_once_all_run (chainh1 1) [chainh1 2, chainh1 3] hyp 0 0 ⟨0, 0⟩
    World.init
  ⟨hyp, run.1, run.2.1, rfl⟩

/-- C1 as stated fails: in `Chain(t).Chain(b)`, both handlers call `Next` on
the cursor they received and return no error, `t` calls it twice, and `b` is
invoked twice. -/
theorem C1_counterexample_second_call :
    (∀ h ∈ [callsNextTwice 0, chainh1 1], h.CallsNext ∧ h.NilIfNil) ∧
    (runOwnElements (buildChain (callsNextTwice 0) [chainh1 1] World.init).1 0 0 ⟨0, 0⟩
      (buildChain (callsNextTwice 0) [chainh1 1] World.init).2).1 = none ∧
    (runOwnElements (buildChain (callsNextTwice 0) [chainh1 1] World.init).1 0 0 ⟨0, 0⟩
      (buildChain (callsNextTwice 0) [chainh1 1] World.init).2).2.invoked
      = [callsNextTwice 0, chainh1 1, chainh1 1] ∧
    ¬ ((runOwnElements (buildChain (callsNextTwice 0) [chainh1 1] World.init).1 0 0 ⟨0, 0⟩
      (buildChain (callsNextTwice 0) [chainh1 1] World.init).2).2.invoked
      = (buildChain (callsNextTwice 0) [chainh1 1] World.init).2.invoked
        ++ [callsNextTwice 0, chainh1 1]) := by
  refine ⟨?_, rfl, rfl, ?_⟩
  · intro h hh
    simp only [List.mem_cons, List.mem_singleton, List.not_mem_nil, or_false] at hh
    rcases hh with rfl | rfl
    · exact ⟨callsNextTwice_callsNext _, callsNextTwice_nilIfNil _⟩
    · exact ⟨chainh1_callsNext _, chainh1_nilIfNil _⟩
  · intro h
    have := congrArg List.length h
    revert this
    decide

/-- C2 (amended).  For every chain and every position `k` such that the handler
at `k` returns a failure without calling `Next` and every handler at positions
`0..k-1` calls `Next` exactly once on the cursor it received, running the
chain over its own element list invokes the handlers at `0..k` once each, in
order, and no handler at a position after `k`. -/
theorem C2_failure_ends_the_run (chain : Nat) (s : World) (k : Nat) (hK : Handler)
    (hk : (s.heap chain).elements[k]? = some hK) (hfail : hK.Fails)
    (hpre : ∀ i h, i < k → (s.heap chain).elements[i]? = some h → h.CallsNextOnce)
    (ctx : Context) (w : ResponseWriter) (r : Request) :
    (runOwnElements chain ctx w r s).2.invocations
      = s.invocations ++ ChainCtx.schedule (s.heap chain).elements (k + 1) ∧
    (runOwnElements chain ctx w r s).2.invoked
      = s.invoked ++ (s.heap chain).elements.take (k + 1) := by
  have hstop : ∀ ctx w r, ∃ e, (hK.code ctx w r).Stops e := fun ctx w r =>
    (hfail ctx w r).elim (fun e he => ⟨some e, he⟩)
  have hinv := invokes_upto (s.heap chain).elements k hK hk hstop hpre ctx w r s
  refine ⟨hinv, ?_⟩
  have := invoked_of_invocations hinv
  rwa [schedule_map_fst] at this

/-- C2 at the chain of `TestChainErr`, where the handler at position 2 fails. -/
theorem C2_failure_ends_the_run_witness :
    (testChainErr.2.heap testChainErr.1).elements[2]? = some (chainerr 5) ∧
    (chainerr 5).Fails ∧
    (∀ i h, i < 2 → (testChainErr.2.heap testChainErr.1).elements[i]? = some h →
      h.CallsNextOnce) ∧
    (runOwnElements testChainErr.1 0 0 ⟨0, 0⟩ testChainErr.2).2.invoked
      = testChainErr.2.invoked ++ (testChainErr.2.heap testChainErr.1).elements.take (2 + 1) :=
  have hpre : ∀ i h, i < 2 → (testChainErr.2.heap testChainErr.1).elements[i]? = some h →
      h.CallsNextOnce := by
    intro i h hi hx
    have hel : (testChainErr.2.heap testChainErr.1).elements
        = [chainh1 1, chainh1 2, chainerr 5, chainh1 3] := buildChain_elements _ _ _
    rw [hel] at hx
    interval_cases i
    · simp at hx; subst hx; exact chainh1_callsNextOnce 1
    · simp at hx; subst hx; exact chainh1_callsNextOnce 2
  ⟨rfl, chainerr_fails 5, hpre,
    (C2_failure_ends_the_run testChainErr.1 testChainErr.2 2 (chainerr 5) rfl (chainerr_fails 5)
      hpre 0 0 ⟨0, 0⟩).2⟩

/-- C2 as stated fails: in `twiceThenErr` the handler at position 0 calls `Next`
on the cursor it received (twice), the handler at position 1 fails without
calling `Next`, and the handler at position 1 is invoked twice. -/
theorem C2_counterexample_second_call :
    (twiceThenErr.2.heap twiceThenErr.1).elements[1]? = some (chainerr 1) ∧
    (chainerr 1).Fails ∧
    (∀ i h, i < 1 → (twiceThenErr.2.heap twiceThenErr.1).elements[i]? = some h → h.CallsNext) ∧
    (runOwnElements twiceThenErr.1 0 0 ⟨0, 0⟩ twiceThenErr.2).2.invoked
      = [callsNextTwice 0, chainerr 1, chainerr 1] ∧
    ¬ ((runOwnElements twiceThenErr.1 0 0 ⟨0, 0⟩ twiceThenErr.2).2.invoked
      = twiceThenErr.2.invoked ++ (twiceThenErr.2.heap twiceThenErr.1).elements.take (1 + 1)) := by
  refine ⟨rfl, chainerr_fails 1, ?_, rfl, ?_⟩
  · intro i h hi hx
    have hel : (twiceThenErr.2.heap twiceThenErr.1).elements
        = [callsNextTwice 0, chainerr 1, chainh1 2] := buildChain_elements _ _ _
    rw [hel] at hx
    interval_cases i
    simp at hx; subst hx; exact callsNextTwice_callsNext 0
  · intro h
    have := congrArg List.length h
    revert this
    decide

/-- C3.  For every chain in which the handler at position `k` returns the error
`e` without calling `Next` and every handler at positions `0..k-1` returns the
result of its own `Next` call, `HandleRequest` over the chain's element list
returns exactly `e`, and so does `Next` on the cursor from every position
`i ≤ k`: the failure goes up the call stack unchanged. -/
theorem C3_first_failure_returned_unchanged (chain : Nat) (s : World) (k : Nat)
    (hK : Handler) (e : Err)
    (hk : (s.heap chain).elements[k]? = some hK) (hstop : hK.Stops (some e))
    (hpre : ∀ i h, i < k → (s.heap chain).elements[i]? = some h → h.Forwards)
    (ctx : Context) (w : ResponseWriter) (r : Request) :
    (HandlerChain.HandleRequest chain ctx w r (s.heap chain).elements s).1 = some e ∧
    ∀ i, i ≤ k → Returns (ChainCtx.Next ((s.heap chain).elements.drop i)) (some e) := by
  have hall := returns_upto (s.heap chain).elements k hK (some e) hk hstop hpre
  refine ⟨?_, hall⟩
  simpa [HandlerChain.HandleRequest] using hall 0 (Nat.zero_le k) ctx w r s

/-- C3 at the chain of `TestChainErr`: the error of the handler at position 2 is returned. -/
theorem C3_first_failure_returned_unchanged_witness :
    (testChainErr.2.heap testChainErr.1).elements[2]? = some (chainerr 5) ∧
    (chainerr 5).Stops (some "err") ∧
    (∀ i h, i < 2 → (testChainErr.2.heap testChainErr.1).elements[i]? = some h → h.Forwards) ∧
    (HandlerChain.HandleRequest testChainErr.1 0 0 ⟨0, 0⟩
      (testChainErr.2.heap testChainErr.1).elements testChainErr.2).1 = some "err" :=
  have hpre : ∀ i h, i < 2 → (testChainErr.2.heap testChainErr.1).elements[i]? = some h →
      h.Forwards := by
    intro i h hi hx
    have hel : (testChainErr.2.heap testChainErr.1).elements
        = [chainh1 1, chainh1 2, chainerr 5, chainh1 3] := buildChain_elements _ _ _
    rw [hel] at hx
    interval_cases i
    · simp at hx; subst hx; exact chainh1_forwards 1
    · simp at hx; subst hx; exact chainh1_forwards 2
  ⟨rfl, chainerr_stops 5, hpre,
    (C3_first_failure_returned_unchanged testChainErr.1 testChainErr.2 2 (chainerr 5) "err" rfl
      (chainerr_stops 5) hpre 0 0 ⟨0, 0⟩).1⟩

/-- C4 (amended).  For every chain and every position `k` such that the handler
at `k` returns success without calling `Next` and every handler at positions
`0..k-1` calls `Next` exactly once on the cursor it received and returns its
result, running the chain over its own element list invokes the handlers at
`0..k` once each, in order, no handler after `k`, and returns nil. -/
theorem C4_success_without_next_ends_the_run (chain : Nat) (s : World) (k : Nat)
    (hK : Handler)
    (hk : (s.heap chain).elements[k]? = some hK) (hstop : hK.Stops none)
    (hpre : ∀ i h, i < k → (s.heap chain).elements[i]? = some h →
      h.CallsNextOnce ∧ h.Forwards)
    (ctx : Context) (w : ResponseWriter) (r : Request) :
    (runOwnElements chain ctx w r s).1 = none ∧
    (runOwnElements chain ctx w r s).2.invocations
      = s.invocations ++ ChainCtx.schedule (s.heap chain).elements (k + 1) ∧
    (runOwnElements chain ctx w r s).2.invoked
      = s.invoked ++ (s.heap chain).elements.take (k + 1) := by
  have hinv := invokes_upto (s.heap chain).elements k hK hk
    (fun ctx w r => ⟨none, hstop ctx w r⟩) (fun i h hi hx => (hpre i h hi hx).1) ctx w r s
  have hret := returns_upto (s.heap chain).elements k hK none hk hstop
    (fun i h hi hx => (hpre i h hi hx).2) 0 (Nat.zero_le k) ctx w r s
  refine ⟨by simpa using hret, hinv, ?_⟩
  have := invoked_of_invocations hinv
  rwa [schedule_map_fst] at this

/-- C4 at the chain `stopInTheMiddle`, where the handler at position 1 stops. -/
theorem C4_success_without_next_ends_the_run_witness :
    (stopInTheMiddle.2.heap stopInTheMiddle.1).elements[1]? = some (stopsNil 2) ∧
    (stopsNil 2).Stops none ∧
    (∀ i h, i < 1 → (stopInTheMiddle.2.heap stopInTheMiddle.1).elements[i]? = some h →
      h.CallsNextOnce ∧ h.Forwards) ∧
    (runOwnElements stopInTheMiddle.1 0 0 ⟨0, 0⟩ stopInTheMiddle.2).1 = none ∧
    (runOwnElements stopInTheMiddle.1 0 0 ⟨0, 0⟩ stopInTheMiddle.2).2.invoked
      = stopInTheMiddle.2.invoked
        ++ (stopInTheMiddle.2.heap stopInTheMiddle.1).elements.take (1 + 1) :=
  have hpre : ∀ i h, i < 1 → (stopInTheMiddle.2.heap stopInTheMiddle.1).elements[i]? = some h →
      h.CallsNextOnce ∧ h.Forwards := by
    intro i h hi hx
    have hel : (stopInTheMiddle.2.heap stopInTheMiddle.1).elements
        = [chainh1 1, stopsNil 2, chainh1 3] := buildChain_elements _ _ _
    rw [hel] at hx
    interval_cases i
    simp at hx; subst hx; exact ⟨chainh1_callsNextOnce 1, chainh1_forwards 1⟩
  have run := C4_success_without_next_ends_the_run stopInTheMiddle.1 stopInTheMiddle.2 1
    (stopsNil 2) rfl (stopsNil_stops 2) hpre 0 0 ⟨0, 0⟩
  ⟨rfl, stopsNil_stops 2, hpre, run.1, run.2.2⟩

/-- C4 as stated fails: in `twiceThenStop` the handler at position 0 calls `Next`
on the cursor it received (twice) and returns its result, the handler at
position 1 returns nil without calling `Next`, and the handler at position 1
is invoked twice. -/
theorem C4_counterexample_second_call :
    (twiceThenStop.2.heap twiceThenStop.1).elements[1]? = some (stopsNil 1) ∧
    (stopsNil 1).Stops none ∧
    (∀ i h, i < 1 → (twiceThenStop.2.heap twiceThenStop.1).elements[i]? = some h →
      h.CallsNext ∧ h.Forwards) ∧
    (runOwnElements twiceThenStop.1 0 0 ⟨0, 0⟩ twiceThenStop.2).2.invoked
      = [callsNextTwice 0, stopsNil 1, stopsNil 1] ∧
    ¬ ((runOwnElements twiceThenStop.1 0 0 ⟨0, 0⟩ twiceThenStop.2).2.invoked
      = twiceThenStop.2.invoked
        ++ (twiceThenStop.2.heap twiceThenStop.1).elements.take (1 + 1)) := by
  refine ⟨rfl, stopsNil_stops 1, ?_, rfl, ?_⟩
  · intro i h hi hx
    have hel : (twiceThenStop.2.heap twiceThenStop.1).elements
        = [callsNextTwice 0, stopsNil 1, chainh1 2] := buildChain_elements _ _ _
    rw [hel] at hx
    interval_cases i
    simp at hx; subst hx; exact ⟨callsNextTwice_callsNext 0, callsNextTwice_forwards 0⟩
  · intro h
    have := congrArg List.length h
    revert this
    decide

/-- C5.  For every chain and every request, `ServeHTTP` calls the configured
error renderer exactly once, with the response writer and the very error the
chain execution returned, when that execution returned a non-nil error, and
not at all when it returned nil; the renderer's writes follow on the trace. -/
theorem C5_renderer_called_iff_failure (chain : Nat) (writer : ResponseWriter)
    (request : Request) (s : World) :
    (HandlerChain.ServeHTTP chain writer request s).rendered
      = s.rendered ++
        (match (HandlerChain.HandleRequest chain request.Context writer request
          (s.heap chain).elements s).1 with
        | some e =>
            [(((HandlerChain.HandleRequest chain request.Context writer request
              (s.heap chain).elements s).2.heap chain).renderErrorFunc, writer, some e)]
        | none => []) ∧
    (HandlerChain.ServeHTTP chain writer request s).trace
      = (HandlerChain.HandleRequest chain request.Context writer request
          (s.heap chain).elements s).2.trace ++
        (match (HandlerChain.HandleRequest chain request.Context writer request
          (s.heap chain).elements s).1 with
        | some e =>
            Event.render ((HandlerChain.HandleRequest chain request.Context writer request
                (s.heap chain).elements s).2.heap chain).renderErrorFunc writer (some e) ::
              ((((HandlerChain.HandleRequest chain request.Context writer request
                (s.heap chain).elements s).2.heap chain).renderErrorFunc).body (some e)).map
                (Event.writer writer)
        | none => []) := by
  refine ⟨ServeHTTP_rendered chain writer request s, ?_⟩
  unfold HandlerChain.ServeHTTP
  cases h : (HandlerChain.HandleRequest chain request.Context writer request
      (s.heap chain).elements s).1 with
  | none => simp [h]
  | some e => simp [h, call_trace]

/-- C6 fails on the code: `HandleRequest` runs the cursor it is given, not the
elements of its chain.  On the chain `Chain(a)` with the empty cursor it
returns nil and invokes nothing, while `Next` over the chain's element list
invokes `a`; and when that chain is the only element of an outer chain,
serving the outer chain invokes the inner chain's `HandleRequest` and never `a`. -/
theorem C6_HandleRequest_runs_the_cursor_given :
    (oneHandler.2.heap oneHandler.1).elements = [chainh1 1] ∧
    HandlerChain.HandleRequest oneHandler.1 0 0 ⟨0, 0⟩ [] oneHandler.2 = (none, oneHandler.2) ∧
    (ChainCtx.Next (oneHandler.2.heap oneHandler.1).elements 0 0 ⟨0, 0⟩ oneHandler.2).2.invoked
      = [chainh1 1] ∧
    (nestedChain.2.heap nestedChain.1).elements = [Handler.chain oneHandler.1] ∧
    (nestedChain.2.heap oneHandler.1).elements = [chainh1 1] ∧
    (HandlerChain.ServeHTTP nestedChain.1 0 ⟨0, 0⟩ nestedChain.2).invoked
      = [Handler.chain oneHandler.1] :=
  ⟨rfl, rfl, rfl, rfl, rfl, rfl⟩

/-- C7.  `ChainCtx.Next` equals its reference definition for every cursor: on
the empty cursor it returns nil and leaves the world (trace, writers, builders)
as it was; otherwise it makes one call of `c[0].HandleRequest` with the same
`ctx`, writer and request and the cursor `c[1:]`, and returns what it returns. -/
theorem C7_Next_equals_reference (c : ChainCtx) (ctx : Context) (w : ResponseWriter)
    (r : Request) (s : World) :
    ChainCtx.Next c ctx w r s = ChainCtx.NextSpec c ctx w r s ∧
    ChainCtx.Next [] ctx w r s = (none, s) ∧
    ∀ (h : Handler) (c1 : ChainCtx),
      ChainCtx.Next (h :: c1) ctx w r s
        = h.HandleRequest ctx w r c1 (s.record (Event.call h ctx w r c1)) ∧
      (s.record (Event.call h ctx w r c1)).invocations = s.invocations ++ [(h, c1)] := by
  refine ⟨?_, rfl, fun h c1 => ⟨rfl, invocations_record_call _ _ _ _ _ _⟩⟩
  cases c with
  | nil => rfl
  | cons h c1 => rfl

/-- C8.  For every chain in which the handler at position `j` calls `Next`,
is returned a non-nil error by it and returns nil, and every handler before
`j` returns the result of its own `Next` call, the chain execution returns nil
and `ServeHTTP` does not call the error renderer. -/
theorem C8_caught_failure_is_not_rendered (chain : Nat) (s : World) (j : Nat) (hJ : Handler)
    (hj : (s.heap chain).elements[j]? = some hJ) (hcatch : hJ.Catches)
    (hdown : ∀ ctx w r t, ∃ e : Err,
      (ChainCtx.Next ((s.heap chain).elements.drop (j + 1)) ctx w r t).1 = some e)
    (hpre : ∀ i h, i < j → (s.heap chain).elements[i]? = some h → h.Forwards)
    (writer : ResponseWriter) (request : Request) :
    (HandlerChain.HandleRequest chain request.Context writer request
      (s.heap chain).elements s).1 = none ∧
    (HandlerChain.ServeHTTP chain writer request s).rendered = s.rendered := by
  obtain ⟨hlt, hget⟩ := List.getElem?_eq_some.mp hj
  have hdrop : (s.heap chain).elements.drop j = hJ :: (s.heap chain).elements.drop (j + 1) := by
    rw [List.drop_eq_getElem_cons hlt, hget]
  have hbase : Returns (ChainCtx.Next ((s.heap chain).elements.drop j)) none := by
    rw [hdrop]
    exact returns_cons_of_catches hcatch hdown
  have hret := returns_of_forwards_before (s.heap chain).elements j none hbase hpre
    request.Context writer request s
  have hres : (HandlerChain.HandleRequest chain request.Context writer request
      (s.heap chain).elements s).1 = none := hret
  refine ⟨hres, ?_⟩
  rw [ServeHTTP_rendered, hres]
  simp

/-- C8 at the chain `caughtFailure`: the handler at position 1 catches the
failure of the handler at position 2. -/
theorem C8_caught_failure_is_not_rendered_witness :
    (caughtFailure.2.heap caughtFailure.1).elements[1]? = some (swallows 2) ∧
    (swallows 2).Catches ∧
    (∀ ctx w r t, ∃ e : Err, (ChainCtx.Next
      ((caughtFailure.2.heap caughtFailure.1).elements.drop (1 + 1)) ctx w r t).1 = some e) ∧
    (∀ i h, i < 1 → (caughtFailure.2.heap caughtFailure.1).elements[i]? = some h →
      h.Forwards) ∧
    (HandlerChain.HandleRequest caughtFailure.1 (Request.Context ⟨0, 0⟩) 0 ⟨0, 0⟩
      (caughtFailure.2.heap caughtFailure.1).elements caughtFailure.2).1 = none ∧
    (HandlerChain.ServeHTTP caughtFailure.1 0 ⟨0, 0⟩ caughtFailure.2).rendered
      = caughtFailure.2.rendered :=
  have hdown : ∀ ctx w r t, ∃ e : Err, (ChainCtx.Next
      ((caughtFailure.2.heap caughtFailure.1).elements.drop (1 + 1)) ctx w r t).1 = some e :=
    fun _ _ _ _ => ⟨"err", rfl⟩
  have hpre : ∀ i h, i < 1 → (caughtFailure.2.heap caughtFailure.1).elements[i]? = some h →
      h.Forwards := by
    intro i h hi hx
    have hel : (caughtFailure.2.heap caughtFailure.1).elements
        = [chainh1 1, swallows 2, chainerr 3] := buildChain_elements _ _ _
    rw [hel] at hx
    interval_cases i
    simp at hx; subst hx; exact chainh1_forwards 1
  have run := C8_caught_failure_is_not_rendered caughtFailure.1 caughtFailure.2 1 (swallows 2)
    rfl (swallows_catches 2) hdown hpre 0 ⟨0, 0⟩
  ⟨rfl, swallows_catches 2, hdown, hpre, run.1, run.2⟩

/-- C9.  For every builder with handler list `L` and renderer `f` and every
handler `h`, present in `L` or not, the method `Chain(h)` returns that same
builder and changes nothing but its handler list, which becomes `L ++ [h]`.
Nothing is de-duplicated: after `m` calls the list is `L` followed by `m`
copies of `h`, and a run in which every handler calls `Next` once invokes the
handler of every position, so `h` once for each of its positions. -/
theorem C9_Chain_appends_keeps_duplicates (chain : Nat) (h : Handler) (s : World) :
    (HandlerChain.Chain chain h s).1 = chain ∧
    (HandlerChain.Chain chain h s).2.heap
      = Function.update s.heap chain
          { renderErrorFunc := (s.heap chain).renderErrorFunc,
            elements := (s.heap chain).elements ++ [h] } ∧
    (HandlerChain.Chain chain h s).2.trace = s.trace ∧
    (HandlerChain.Chain chain h s).2.brk = s.brk ∧
    ∀ m : Nat,
      ((appendTimes chain h m s).heap chain).elements
        = (s.heap chain).elements ++ List.replicate m h ∧
      ((appendTimes chain h m s).heap chain).renderErrorFunc = (s.heap chain).renderErrorFunc ∧
      ((∀ x ∈ (s.heap chain).elements ++ [h], x.CallsNextOnce) →
        ∀ ctx w r,
          (runOwnElements chain ctx w r (appendTimes chain h m s)).2.invoked
            = (appendTimes chain h m s).invoked
              ++ ((s.heap chain).elements ++ List.replicate m h)) := by
  refine ⟨rfl, rfl, rfl, rfl, fun m => ⟨(appendTimes_chain chain h m s).1,
    (appendTimes_chain chain h m s).2, fun hpass ctx w r => ?_⟩⟩
  unfold runOwnElements HandlerChain.HandleRequest
  rw [(appendTimes_chain chain h m s).1]
  have hall : ∀ x ∈ (s.heap chain).elements ++ List.replicate m h, x.CallsNextOnce := by
    intro x hx
    rcases List.mem_append.mp hx with hx | hx
    · exact hpass x (List.mem_append_left _ hx)
    · rw [(List.mem_replicate.mp hx).2]
      exact hpass h (List.mem_append_right _ (List.mem_singleton_self h))
  have := invoked_of_invocations (invokes_all _ hall ctx w r (appendTimes chain h m s))
  rw [schedule_map_fst, List.take_length] at this
  exact this

/-- C9 at the chain `Chain(a)`, to which `a` itself is appended twice more:
`a` holds three positions and a run invokes it three times. -/
theorem C9_Chain_appends_keeps_duplicates_witness :
    (∀ x ∈ (oneHandler.2.heap oneHandler.1).elements ++ [chainh1 1], x.CallsNextOnce) ∧
    ((appendTimes oneHandler.1 (chainh1 1) 2 oneHandler.2).heap oneHandler.1).elements
      = [chainh1 1, chainh1 1, chainh1 1] ∧
    (runOwnElements oneHandler.1 0 0 ⟨0, 0⟩
      (appendTimes oneHandler.1 (chainh1 1) 2 oneHandler.2)).2.invoked
      = (appendTimes oneHandler.1 (chainh1 1) 2 oneHandler.2).invoked
        ++ ((oneHandler.2.heap oneHandler.1).elements ++ List.replicate 2 (chainh1 1)) :=
  have hpass : ∀ x ∈ (oneHandler.2.heap oneHandler.1).elements ++ [chainh1 1],
      x.CallsNextOnce := by
    intro x hx
    have hel : (oneHandler.2.heap oneHandler.1).elements = [chainh1 1] := Chain_elements _ _
    rw [hel] at hx
    simp only [List.mem_append, List.mem_singleton, or_self] at hx
    subst hx
    exact chainh1_callsNextOnce 1
  ⟨hpass, rfl,
    ((C9_Chain_appends_keeps_duplicates oneHandler.1 (chainh1 1) oneHandler.2).2.2.2.2 2).2.2
      hpass 0 0 ⟨0, 0⟩⟩

/-- C10.  For every handler `h`, the package-level `Chain(h)` returns a new
builder, at the next free address, whose handler list is exactly `[h]` and
whose error renderer is `BasicErrorHandler`; no other builder and no part of
the trace is changed. -/
theorem C10_Chain_returns_new_builder (h : Handler) (s : World) :
    (Chain h s).1 = s.brk ∧
    (Chain h s).2.brk = s.brk + 1 ∧
    ((Chain h s).2.heap (Chain h s).1).elements = [h] ∧
    ((Chain h s).2.heap (Chain h s).1).renderErrorFunc = BasicErrorHandler ∧
    (Chain h s).2.heap
      = Function.update s.heap s.brk { renderErrorFunc := BasicErrorHandler, elements := [h] } ∧
    (Chain h s).2.trace = s.trace := by
  refine ⟨rfl, rfl, Chain_elements h s, Chain_renderErrorFunc h s, ?_, rfl⟩
  simp [Chain, HandlerChain.Chain, World.store]

/-- C11 (amended).  `Err` replaces the error renderer and nothing else, and the
last write wins: for every builder `c` and renderers `f` and `g`,
`c.Err(f).Err(g)` is the builder `c` with the same handler list and renderer
`g`, and a failing `ServeHTTP` afterwards during which no handler of the chain
calls `Err` on that builder calls `g` exactly once and no other renderer.
Whatever the handlers do, the one renderer called is the last one written
when the run returns: `g`, or the last one a handler handed to `c.Err` during
the run. -/
theorem C11_Err_last_write_wins (chain : Nat) (f g : RenderErrorFunc) (s : World) :
    (HandlerChain.Err chain g (HandlerChain.Err chain f s).2).1 = chain ∧
    (HandlerChain.Err chain g (HandlerChain.Err chain f s).2).2.heap
      = Function.update s.heap chain
          { renderErrorFunc := g, elements := (s.heap chain).elements } ∧
    (HandlerChain.Err chain g (HandlerChain.Err chain f s).2).2.trace = s.trace ∧
    (HandlerChain.Err chain g (HandlerChain.Err chain f s).2).2.brk = s.brk ∧
    (∀ (writer : ResponseWriter) (request : Request) (e : Err),
      ChainCtx.errsOn chain (s.heap chain).elements request.Context writer request
        (HandlerChain.Err chain g (HandlerChain.Err chain f s).2).2 = [] →
      (HandlerChain.HandleRequest chain request.Context writer request
        (s.heap chain).elements (HandlerChain.Err chain g (HandlerChain.Err chain f s).2).2).1
        = some e →
      (HandlerChain.ServeHTTP chain writer request
        (HandlerChain.Err chain g (HandlerChain.Err chain f s).2).2).rendered
        = (HandlerChain.Err chain g (HandlerChain.Err chain f s).2).2.rendered
          ++ [(g, writer, some e)]) ∧
    ∀ (writer : ResponseWriter) (request : Request) (e : Err),
      (HandlerChain.HandleRequest chain request.Context writer request
        (s.heap chain).elements (HandlerChain.Err chain g (HandlerChain.Err chain f s).2).2).1
        = some e →
      (HandlerChain.ServeHTTP chain writer request
        (HandlerChain.Err chain g (HandlerChain.Err chain f s).2).2).rendered
        = (HandlerChain.Err chain g (HandlerChain.Err chain f s).2).2.rendered
          ++ [(lastWrite g (ChainCtx.errsOn chain (s.heap chain).elements request.Context
                writer request (HandlerChain.Err chain g (HandlerChain.Err chain f s).2).2),
              writer, some e)] := by
  have hheap : (HandlerChain.Err chain g (HandlerChain.Err chain f s).2).2.heap
      = Function.update s.heap chain
          { renderErrorFunc := g, elements := (s.heap chain).elements } := by
    simp [HandlerChain.Err, World.store]
  have hel : ((HandlerChain.Err chain g (HandlerChain.Err chain f s).2).2.heap chain).elements
      = (s.heap chain).elements := by rw [hheap]; simp
  have hren : ((HandlerChain.Err chain g
      (HandlerChain.Err chain f s).2).2.heap chain).renderErrorFunc = g := by
    rw [hheap]; simp
  have hlast : ∀ (writer : ResponseWriter) (request : Request) (e : Err),
      (HandlerChain.HandleRequest chain request.Context writer request
        (s.heap chain).elements (HandlerChain.Err chain g (HandlerChain.Err chain f s).2).2).1
        = some e →
      (HandlerChain.ServeHTTP chain writer request
        (HandlerChain.Err chain g (HandlerChain.Err chain f s).2).2).rendered
        = (HandlerChain.Err chain g (HandlerChain.Err chain f s).2).2.rendered
          ++ [(lastWrite g (ChainCtx.errsOn chain (s.heap chain).elements request.Context
                writer request (HandlerChain.Err chain g (HandlerChain.Err chain f s).2).2),
              writer, some e)] := by
    intro writer request e hfail
    rw [ServeHTTP_rendered, hel, hfail]
    have hrun := Next_renderer_last chain (s.heap chain).elements request.Context writer
      request (HandlerChain.Err chain g (HandlerChain.Err chain f s).2).2
    rw [hren] at hrun
    have hrun2 : ((HandlerChain.HandleRequest chain request.Context writer request
        (s.heap chain).elements
        (HandlerChain.Err chain g (HandlerChain.Err chain f s).2).2).2.heap
          chain).renderErrorFunc
        = lastWrite g (ChainCtx.errsOn chain (s.heap chain).elements request.Context
            writer request (HandlerChain.Err chain g (HandlerChain.Err chain f s).2).2) := hrun
    simp only [hrun2]
  refine ⟨rfl, hheap, rfl, rfl, fun writer request e hnone hfail => ?_, hlast⟩
  have := hlast writer request e hfail
  rw [hnone] at this
  exact this

/-- C11 at two chains after `c.Err(renderF).Err(renderG)`.  In `unreachedErr`
the first handler fails and the second, which would call `c.Err(renderF)`, is
never reached: no handler calls `Err` during the run and the failure is
rendered by `renderG`, once.  So it is in `failingWithG`, whose handlers
never call `Err`. -/
theorem C11_Err_last_write_wins_witness :
    unreachedErr.1 = 0 ∧
    (unreachedErr.2.heap unreachedErr.1).elements
      = [chainerr 1, setsRendererThenFails 7 0 renderF] ∧
    ChainCtx.errsOn unreachedErr.1 (unreachedErr.2.heap unreachedErr.1).elements
      (Request.Context ⟨0, 0⟩) 0 ⟨0, 0⟩
      (HandlerChain.Err unreachedErr.1 renderG
        (HandlerChain.Err unreachedErr.1 renderF unreachedErr.2).2).2 = [] ∧
    (HandlerChain.ServeHTTP unreachedErr.1 0 ⟨0, 0⟩
      (HandlerChain.Err unreachedErr.1 renderG
        (HandlerChain.Err unreachedErr.1 renderF unreachedErr.2).2).2).rendered
      = [(renderG, 0, some "err")] ∧
    (failingWithG.2.heap failingWithG.1).renderErrorFunc = renderG ∧
    (HandlerChain.ServeHTTP failingWithG.1 0 ⟨0, 0⟩ failingWithG.2).rendered
      = [(renderG, 0, some "err")] :=
  ⟨rfl, rfl, rfl,
    (C11_Err_last_write_wins unreachedErr.1 renderF renderG unreachedErr.2).2.2.2.2.1
      0 ⟨0, 0⟩ "err" rfl rfl,
    rfl,
    (C11_Err_last_write_wins (buildChain (chainh1 1) [chainerr 2] World.init).1 renderF renderG
      (buildChain (chainh1 1) [chainerr 2] World.init).2).2.2.2.2.1 0 ⟨0, 0⟩ "err" rfl rfl⟩

/-- C11 as stated fails: in `handlerResetsRenderer` the only handler of the
chain `c` calls `c.Err(renderF)` and fails.  After `c.Err(renderF).Err(renderG)`
the renderer of `c` is `renderG`, yet the failing `ServeHTTP` calls `renderF`
and never `renderG`. -/
theorem C11_counterexample_handler_calls_Err :
    handlerResetsRenderer.1 = 0 ∧
    (handlerResetsRenderer.2.heap handlerResetsRenderer.1).elements
      = [setsRendererThenFails 7 0 renderF] ∧
    (handlerResetsRenderer.2.heap handlerResetsRenderer.1).renderErrorFunc = renderG ∧
    (runOwnElements handlerResetsRenderer.1 0 0 ⟨0, 0⟩ handlerResetsRenderer.2).1
      = some "err" ∧
    (HandlerChain.ServeHTTP handlerResetsRenderer.1 0 ⟨0, 0⟩ handlerResetsRenderer.2).rendered
      = [(renderF, 0, some "err")] ∧
    ¬ ((HandlerChain.ServeHTTP handlerResetsRenderer.1 0 ⟨0, 0⟩
        handlerResetsRenderer.2).rendered
      = handlerResetsRenderer.2.rendered ++ [(renderG, 0, some "err")]) := by
  refine ⟨rfl, rfl, rfl, rfl, rfl, ?_⟩
  intro h
  have := congrArg (List.map (fun x => x.1.name)) h
  revert this
  decide

/-- C12.  For every error value and every response writer, `BasicErrorHandler`
makes one call on the writer, `WriteHeader(http.StatusInternalServerError)`,
that is status 500, writes no body, touches no other writer and no builder,
and what it does is the same for every error. -/
theorem C12_BasicErrorHandler_writes_500 (writer : ResponseWriter) (err : error) (s : World) :
    StatusInternalServerError = 500 ∧
    BasicErrorHandler.body err = [WriterOp.WriteHeader 500] ∧
    (BasicErrorHandler.call writer err s).trace
      = s.trace ++ [Event.render BasicErrorHandler writer err,
          Event.writer writer (WriterOp.WriteHeader 500)] ∧
    (∀ w, (BasicErrorHandler.call writer err s).written w
      = s.written w ++ (if writer = w then [WriterOp.WriteHeader 500] else [])) ∧
    (∀ data, WriterOp.Write data ∉ BasicErrorHandler.body err) ∧
    (∀ err1, BasicErrorHandler.body err1 = BasicErrorHandler.body err) ∧
    (BasicErrorHandler.call writer err s).heap = s.heap ∧
    (BasicErrorHandler.call writer err s).brk = s.brk := by
  have htrace : (BasicErrorHandler.call writer err s).trace
      = s.trace ++ [Event.render BasicErrorHandler writer err,
          Event.writer writer (WriterOp.WriteHeader 500)] := by
    rw [call_trace]; rfl
  refine ⟨rfl, rfl, htrace, fun w => ?_, fun data => ?_, fun _ => rfl,
    (call_heap _ _ _ _).1, (call_heap _ _ _ _).2⟩
  · unfold World.written
    rw [htrace]
    by_cases hw : writer = w <;> simp [Event.written, hw]
  · simp [BasicErrorHandler]

/-- C13.  The function adapter is a pure wrapper: `MakeHandler(f).HandleRequest`
with the cursor `cx` is the body of `f` run with the same arguments and the
same cursor, which is also what an object-style handler with that body runs;
the package-level `ChainFunc(f)` is `Chain(MakeHandler(f))` and the method
`c.ChainFunc(f)` is `c.Chain(MakeHandler(f))`; and a cursor of function-style
handlers runs as the cursor of object-style handlers with the same bodies:
same result, same builders, same effects, as many dispatches. -/
theorem C13_MakeHandler_is_a_pure_wrapper (f : HandlerFunc) (name chain : Nat)
    (ps : List (Nat × HandlerFunc)) (ctx : Context) (w : ResponseWriter) (r : Request)
    (cx : ChainCtx) (s : World) :
    (MakeHandler f).HandleRequest ctx w r cx s = (f ctx w r).exec (ChainCtx.Next cx) s ∧
    (MakeHandler f).HandleRequest ctx w r cx s = (Handler.obj name f).HandleRequest ctx w r cx s ∧
    ChainFunc f s = Chain (MakeHandler f) s ∧
    HandlerChain.ChainFunc chain f s = HandlerChain.Chain chain (MakeHandler f) s ∧
    (ChainCtx.Next (ps.map functionStyle) ctx w r s).1
      = (ChainCtx.Next (ps.map objectStyle) ctx w r s).1 ∧
    SameEffects (ChainCtx.Next (ps.map functionStyle) ctx w r s).2
      (ChainCtx.Next (ps.map objectStyle) ctx w r s).2 := by
  have hrun := Next_sameEffects _ _ (styles_same_code ps) ctx w r s s ⟨rfl, rfl, rfl, rfl⟩
  exact ⟨rfl, rfl, rfl, rfl, hrun.1, hrun.2⟩

/-- C17.  For every chain whose handlers do not themselves modify the builder
(a renderer acts on its writer only), `HandleRequest` and `ServeHTTP` leave
the builder as it was, handler list and error renderer, whether the run
succeeds or fails. -/
theorem C17_run_leaves_builder_unchanged (chain : Nat) (s : World)
    (hkeep : ∀ h ∈ (s.heap chain).elements, h.Keeps chain)
    (ctx : Context) (writer : ResponseWriter) (request : Request) :
    (HandlerChain.HandleRequest chain ctx writer request (s.heap chain).elements s).2.heap chain
      = s.heap chain ∧
    (HandlerChain.ServeHTTP chain writer request s).heap chain = s.heap chain := by
  refine ⟨Next_builder_kept chain _ hkeep _ _ _ _, ?_⟩
  have hrun := Next_builder_kept chain _ hkeep request.Context writer request s
  unfold HandlerChain.ServeHTTP
  cases h : (HandlerChain.HandleRequest chain request.Context writer request
      (s.heap chain).elements s).1 with
  | none => simpa [h] using hrun
  | some e =>
    simp only [h]
    rw [(call_heap _ _ _ _).1]
    exact hrun

/-- C17 at the chain of `TestChainErr`, whose run fails. -/
theorem C17_run_leaves_builder_unchanged_witness :
    (∀ h ∈ (testChainErr.2.heap testChainErr.1).elements, h.Keeps testChainErr.1) ∧
    (runOwnElements testChainErr.1 0 0 ⟨0, 0⟩ testChainErr.2).1 = some "err" ∧
    (HandlerChain.ServeHTTP testChainErr.1 0 ⟨0, 0⟩ testChainErr.2).heap testChainErr.1
      = testChainErr.2.heap testChainErr.1 :=
  have hkeep : ∀ h ∈ (testChainErr.2.heap testChainErr.1).elements, h.Keeps testChainErr.1 := by
    intro h hh
    have hel : (testChainErr.2.heap testChainErr.1).elements
        = [chainh1 1, chainh1 2, chainerr 5, chainh1 3] := buildChain_elements _ _ _
    rw [hel] at hh
    simp only [List.mem_cons, List.mem_singleton, List.not_mem_nil, or_false] at hh
    rcases hh with rfl | rfl | rfl | rfl
    · exact chainh1_keeps _ _
    · exact chainh1_keeps _ _
    · exact chainerr_keeps _ _
    · exact chainh1_keeps _ _
  ⟨hkeep, rfl,
    (C17_run_leaves_builder_unchanged testChainErr.1 testChainErr.2 hkeep 0 0 ⟨0, 0⟩).2⟩

/-- C19.  `HandlerChain.HandleRequest` depends on its cursor argument only: for
every two chains `c1` and `c2`, whatever their handler lists and renderers,
and every cursor `cx`, both calls equal `cx.Next`; so a chain placed as an
element of another chain is dispatched, forwards to the rest of the outer
cursor, runs none of its own handlers and calls no error renderer. -/
theorem C19_HandleRequest_depends_on_cursor_only (c1 c2 : Nat) (ctx : Context)
    (w : ResponseWriter) (r : Request) (cx : ChainCtx) (s : World) :
    HandlerChain.HandleRequest c1 ctx w r cx s = ChainCtx.Next cx ctx w r s ∧
    HandlerChain.HandleRequest c2 ctx w r cx s = ChainCtx.Next cx ctx w r s ∧
    (Handler.chain c1).HandleRequest ctx w r cx s = ChainCtx.Next cx ctx w r s ∧
    ChainCtx.Next (Handler.chain c1 :: cx) ctx w r s
      = ChainCtx.Next cx ctx w r (s.record (Event.call (Handler.chain c1) ctx w r cx)) ∧
    (ChainCtx.Next (Handler.chain c1 :: cx) ctx w r s).2.rendered = s.rendered :=
  ⟨rfl, rfl, rfl, rfl, Next_rendered _ _ _ _ _⟩

/-- C14.  Snapshot of the handler list at entry: for every chain with handler
list `L` and every request served by `ServeHTTP`, whatever the handlers append
to that chain while the request runs, every dispatch of the request is of a
position `i` of `L` with the cursor `L[i+1:]`, so no appended handler is
invoked; the result and the dispatches are those of `Next` over `L` in any
world, whatever the builders hold; the appended handlers `A` are in the
builder afterwards, after `L`, and a request that begins then runs over
`L ++ A`. -/
theorem C14_append_in_flight_is_not_seen (chain : Nat) (writer : ResponseWriter)
    (request : Request) (s : World) :
    ∃ (e : error) (X : List (Handler × ChainCtx)) (A : List Handler),
      (∀ x ∈ X, ∃ i, (s.heap chain).elements[i]? = some x.1 ∧
        x.2 = (s.heap chain).elements.drop (i + 1)) ∧
      (HandlerChain.HandleRequest chain request.Context writer request
        (s.heap chain).elements s).1 = e ∧
      (HandlerChain.ServeHTTP chain writer request s).invocations = s.invocations ++ X ∧
      (∀ t, (ChainCtx.Next (s.heap chain).elements request.Context writer request t).1 = e ∧
        (ChainCtx.Next (s.heap chain).elements request.Context writer request t).2.invocations
          = t.invocations ++ X) ∧
      ((HandlerChain.ServeHTTP chain writer request s).heap chain).elements
        = (s.heap chain).elements ++ A ∧
      ∀ ctx2 w2 r2,
        runOwnElements chain ctx2 w2 r2 (HandlerChain.ServeHTTP chain writer request s)
          = ChainCtx.Next ((s.heap chain).elements ++ A) ctx2 w2 r2
              (HandlerChain.ServeHTTP chain writer request s) := by
  obtain ⟨e, X, hP, hrun⟩ := Next_fixed (s.heap chain).elements (s.heap chain).elements 0
    (List.drop_zero _) request.Context writer request
  obtain ⟨A, hA⟩ := ServeHTTP_elements_append chain writer request s
  refine ⟨e, X, A, hP, (hrun s).1, ?_, hrun, hA, fun ctx2 w2 r2 => ?_⟩
  · rw [ServeHTTP_invocations, (hrun s).2]
  · unfold runOwnElements HandlerChain.HandleRequest
    rw [hA]

/-- C14 at the chain `appendingChain`, whose handler appends `chainh1 9` to
the chain each time it runs: the first request invokes that handler only, the
builder then holds both, and the second request invokes both. -/
theorem C14_append_in_flight_is_not_seen_witness :
    appendingChain.1 = 0 ∧
    (appendingChain.2.heap appendingChain.1).elements
      = [appendsThenContinues 4 0 (chainh1 9)] ∧
    (HandlerChain.ServeHTTP appendingChain.1 0 ⟨0, 0⟩ appendingChain.2).invoked
      = [appendsThenContinues 4 0 (chainh1 9)] ∧
    ((HandlerChain.ServeHTTP appendingChain.1 0 ⟨0, 0⟩ appendingChain.2).heap
      appendingChain.1).elements
      = [appendsThenContinues 4 0 (chainh1 9), chainh1 9] ∧
    (HandlerChain.ServeHTTP appendingChain.1 0 ⟨1, 0⟩
      (HandlerChain.ServeHTTP appendingChain.1 0 ⟨0, 0⟩ appendingChain.2)).invoked
      = [appendsThenContinues 4 0 (chainh1 9), appendsThenContinues 4 0 (chainh1 9),
          chainh1 9] ∧
    ∃ A, ((HandlerChain.ServeHTTP appendingChain.1 0 ⟨0, 0⟩ appendingChain.2).heap
      appendingChain.1).elements = (appendingChain.2.heap appendingChain.1).elements ++ A := by
  refine ⟨rfl, rfl, rfl, rfl, rfl, ?_⟩
  obtain ⟨_, _, A, _, _, _, _, hA, _⟩ :=
    C14_append_in_flight_is_not_seen appendingChain.1 0 ⟨0, 0⟩ appendingChain.2
  exact ⟨A, hA⟩

/-- C15.  Cursor suffix invariant: for every chain with handler list `L` run by
`ServeHTTP`, every dispatch of the request is of the handler at a position `i`
of `L` with the cursor exactly `L[i+1:]`, a suffix of `L`; and a cursor is a
value that `Next` does not change: every call of `Next` on the cursor
`h :: c` dispatches `h` with the cursor `c` first. -/
theorem C15_cursor_is_a_suffix_of_the_list (chain : Nat) (writer : ResponseWriter)
    (request : Request) (s : World) :
    (∃ X, (HandlerChain.ServeHTTP chain writer request s).invocations = s.invocations ++ X ∧
      ∀ x ∈ X, ∃ i, (s.heap chain).elements[i]? = some x.1 ∧
        x.2 = (s.heap chain).elements.drop (i + 1)) ∧
    ∀ (h : Handler) (c : ChainCtx) (ctx : Context) (w : ResponseWriter) (r : Request)
      (t : World),
      ∃ Y, (ChainCtx.Next (h :: c) ctx w r t).2.invocations = t.invocations ++ (h, c) :: Y := by
  obtain ⟨_, X, hP, hrun⟩ := Next_fixed (s.heap chain).elements (s.heap chain).elements 0
    (List.drop_zero _) request.Context writer request
  exact ⟨⟨X, by rw [ServeHTTP_invocations, (hrun s).2], hP⟩, Next_cons_dispatches_head⟩

/-- C16.  For every cursor `c` of length `N` whose handlers each call `Next` at
most once, `c.Next` returns (it is a total function), and the number of
handlers it dispatches is 1 plus the number of leading handlers that chose to
continue, capped at `N`; so it is at most `N`. -/
theorem C16_depth_is_bounded_by_length (c : ChainCtx) (hc : ∀ h ∈ c, h.AtMostOnce)
    (ctx : Context) (w : ResponseWriter) (r : Request) (s : World) :
    (ChainCtx.Next c ctx w r s).2.invocations.length
      = s.invocations.length + min c.length (1 + ChainCtx.continuing c ctx w r) ∧
    (ChainCtx.Next c ctx w r s).2.invocations.length ≤ s.invocations.length + c.length := by
  have h := Next_count c hc ctx w r s
  refine ⟨h, ?_⟩
  rw [h]
  omega

/-- C16 at the cursor of `TestChainErr`: two handlers continue, the third
fails, three handlers are dispatched. -/
theorem C16_depth_is_bounded_by_length_witness :
    (∀ h ∈ [chainh1 1, chainh1 2, chainerr 5, chainh1 3], h.AtMostOnce) ∧
    ChainCtx.continuing [chainh1 1, chainh1 2, chainerr 5, chainh1 3] 0 0 ⟨0, 0⟩ = 2 ∧
    (ChainCtx.Next [chainh1 1, chainh1 2, chainerr 5, chainh1 3] 0 0 ⟨0, 0⟩
      World.init).2.invocations.length = 3 :=
  have hc : ∀ h ∈ [chainh1 1, chainh1 2, chainerr 5, chainh1 3], h.AtMostOnce := by
    intro h hh
    simp only [List.mem_cons, List.mem_singleton, List.not_mem_nil, or_false] at hh
    rcases hh with rfl | rfl | rfl | rfl
    · exact chainh1_atMostOnce _
    · exact chainh1_atMostOnce _
    · exact chainerr_atMostOnce _
    · exact chainh1_atMostOnce _
  ⟨hc, rfl,
    (C16_depth_is_bounded_by_length [chainh1 1, chainh1 2, chainerr 5, chainh1 3] hc 0 0 ⟨0, 0⟩
      World.init).1⟩

/-- C18.  A cursor is not consumed by `Next`: for every `m` and every cursor
`h0 :: rest` in which `h0` calls `Next` `m` times on the cursor it received
and each handler of `rest` calls `Next` exactly once and returns its result,
`h0` is dispatched once and then the handlers of `rest`, in order, `m` times
over; and there is a chain whose handlers all call `Next` and return no error
in which a handler is invoked twice. -/
theorem C18_cursor_is_not_consumed (m : Nat) (h0 : Handler) (rest : ChainCtx)
    (h0m : h0.CallsNextTimes m) (hrest : ∀ h ∈ rest, h.CallsNextOnce ∧ h.Forwards)
    (ctx : Context) (w : ResponseWriter) (r : Request) (s : World) :
    (ChainCtx.Next (h0 :: rest) ctx w r s).2.invocations
      = s.invocations ++ (h0, rest) :: timesList m (ChainCtx.schedule rest rest.length) ∧
    (ChainCtx.Next (h0 :: rest) ctx w r s).2.invoked
      = s.invoked ++ h0 :: timesList m rest ∧
    (ChainCtx.Next (h0 :: rest) ctx w r s).2.invocations.length
      = s.invocations.length + 1 + m * rest.length ∧
    ∃ a b : Handler, (a.CallsNext ∧ a.NilIfNil) ∧ (b.CallsNext ∧ b.NilIfNil) ∧
      (ChainCtx.Next [a, b] 0 0 ⟨0, 0⟩ World.init).1 = none ∧
      (ChainCtx.Next [a, b] 0 0 ⟨0, 0⟩ World.init).2.invoked = [a, b, b] := by
  have hinv : (ChainCtx.Next (h0 :: rest) ctx w r s).2.invocations
      = s.invocations ++ (h0, rest) :: timesList m (ChainCtx.schedule rest rest.length) := by
    rw [Next_cons, (h0m ctx w r).invocations_times
      (invokes_all rest (fun h hh => (hrest h hh).1)), invocations_record_call]
    simp
  refine ⟨hinv, ?_, ?_, callsNextTwice 0, chainh1 1,
    ⟨callsNextTwice_callsNext 0, callsNextTwice_nilIfNil 0⟩,
    ⟨chainh1_callsNext 1, chainh1_nilIfNil 1⟩, rfl, rfl⟩
  · have := invoked_of_invocations hinv
    rw [List.map_cons, map_timesList, schedule_map_fst, List.take_length] at this
    exact this
  · rw [hinv, List.length_append, List.length_cons, length_timesList]
    have : (ChainCtx.schedule rest rest.length).length = rest.length := by
      have := congrArg List.length (schedule_map_fst rest rest.length)
      simpa using this
    rw [this]
    omega

/-- C18 at `m = 2`: after a handler that calls `Next` twice, the two
pass-through handlers of the tests run twice each. -/
theorem C18_cursor_is_not_consumed_witness :
    (callsNextTwice 0).CallsNextTimes 2 ∧
    (∀ h ∈ [chainh1 1, chainh1 2], h.CallsNextOnce ∧ h.Forwards) ∧
    (ChainCtx.Next (callsNextTwice 0 :: [chainh1 1, chainh1 2]) 0 0 ⟨0, 0⟩ World.init).2.invoked
      = [callsNextTwice 0, chainh1 1, chainh1 2, chainh1 1, chainh1 2] :=
  have hrest : ∀ h ∈ [chainh1 1, chainh1 2], h.CallsNextOnce ∧ h.Forwards := by
    intro h hh
    simp only [List.mem_cons, List.mem_singleton, List.not_mem_nil, or_false] at hh
    rcases hh with rfl | rfl <;> exact ⟨chainh1_callsNextOnce _, chainh1_forwards _⟩
  ⟨callsNextTwice_times 0, hrest,
    (C18_cursor_is_not_consumed 2 (callsNextTwice 0) [chainh1 1, chainh1 2]
      (callsNextTwice_times 0) hrest 0 0 ⟨0, 0⟩ World.init).2.1⟩

end Chains
